import Mathlib

/-!
Verification of the chromatic terminal text-styling codec
(`src/chromatic/color/core.py`).

Byte strings are modelled as `List Nat` (one entry per byte).  The color
conversion helpers live in the repository's `colorconv` module, which is not
part of the provided sources; those definitions are modelled from the spec and
carry a doc comment saying so.  Everything else is translated from
`core.py` directly.
-/

namespace Chromatic

abbrev Bytes := List Nat

/-- RGB triple (each channel an 8-bit value in intended use). -/
abbrev Rgb := Nat × Nat × Nat

/-- The two color-assignment slots (`'fg'` / `'bg'` dictionary keys). -/
inductive Slot where
  | fg
  | bg
deriving DecidableEq, Repr

/-- The three ANSI color wire formats (`ansicolor4Bit`, `ansicolor8Bit`,
`ansicolor24Bit`). -/
inductive AnsiTyp where
  | a4
  | a8
  | a24
deriving DecidableEq, Repr

/-! ### Decimal byte-string encoding (`b'%d' % n` and `int(bytes)`) -/
/-- Base-10 digits of `n`, least significant first, with explicit fuel so the
definition is structural (`[]` for `0`). -/
def decDigits : Nat → Nat → List Nat
  | 0, _ => []
  | fuel + 1, n => if n = 0 then [] else n % 10 :: decDigits fuel (n / 10)

/-- ASCII decimal encoding of a natural number, modelling Python `b'%d' % n`. -/
def encNat (n : Nat) : Bytes :=
  if n = 0 then [48] else ((decDigits n n).reverse.map (· + 48))

/-- Is the byte an ASCII digit? -/
def isDigit (c : Nat) : Bool := 48 ≤ c && c ≤ 57

/-- Parse an ASCII decimal byte string, modelling Python `int(bytes)`
(which raises on empty or non-digit input). -/
def parseNat (l : Bytes) : Option Nat :=
  if l ≠ [] && l.all isDigit then
    some (l.foldl (fun a c => 10 * a + (c - 48)) 0)
  else
    none

/-- Split a byte string on `b';'` (byte `0x3b`), modelling `bytes.split(b';')`. -/
def splitSemi : Bytes → List Bytes
  | [] => [[]]
  | c :: rest =>
    match splitSemi rest with
    | [] => [[]]
    | h :: t => if c = 59 then [] :: h :: t else (c :: h) :: t

/-- `bytes.removeprefix`: drop `pre` from the front when present. -/
def dropPre (pre l : Bytes) : Bytes :=
  if pre.isPrefixOf l then l.drop pre.length else l

/-- `bytes.removesuffix`: drop `suf` from the end when present. -/
def dropSuf (suf l : Bytes) : Bytes :=
  if suf.isSuffixOf l then l.take (l.length - suf.length) else l

/-- `CSI` from `core.py`: the bytes `b'\x1b['`. -/
def CSI : Bytes := [27, 91]

/-- Join byte strings with `b';'`, modelling `b';'.join(...)`. -/
def joinSemi : List Bytes → Bytes
  | [] => []
  | [p] => p
  | p :: ps => p ++ 59 :: joinSemi ps

/-! ### The 4-bit palette and the `colorconv` helpers (spec-modelled) -/
/-- Modelled from the spec: the conventional 16-entry ANSI palette
("8 standard colors + 8 bright colors", §3/§4.2; values pinned by the
repository's doctests, e.g. code 31 ↦ (170, 0, 0) and (255, 85, 85) ↦ 91). -/
def palette16 : List Rgb :=
  [(0, 0, 0), (170, 0, 0), (0, 170, 0), (170, 85, 0),
   (0, 0, 170), (170, 0, 170), (0, 170, 170), (170, 170, 170),
   (85, 85, 85), (255, 85, 85), (85, 255, 85), (255, 255, 85),
   (85, 85, 255), (255, 85, 255), (85, 255, 255), (255, 255, 255)]

/-- All 4-bit SGR color codes, in the construction order of `_ANSI16C_I2KV`
(for each base 30, 90 and offset j in 0..7: fg j, bg j+10). -/
def ansi16Codes : List Nat :=
  ((List.range 8).map (fun j => [30 + j, 40 + j])).flatten ++
    ((List.range 8).map (fun j => [90 + j, 100 + j])).flatten

/-- Palette index (0..15) of a 4-bit SGR color code, `none` when the code
is not a 4-bit color code. -/
def code4Index (c : Nat) : Option Nat :=
  if 30 ≤ c ∧ c ≤ 37 then some (c - 30)
  else if 40 ≤ c ∧ c ≤ 47 then some (c - 40)
  else if 90 ≤ c ∧ c ≤ 97 then some (c - 90 + 8)
  else if 100 ≤ c ∧ c ≤ 107 then some (c - 100 + 8)
  else none

/-- Slot of a 4-bit SGR color code (30–37/90–97 foreground, 40–47/100–107
background). -/
def code4Slot (c : Nat) : Slot :=
  if (30 ≤ c ∧ c ≤ 37) ∨ (90 ≤ c ∧ c ≤ 97) then Slot.fg else Slot.bg

/-- Modelled from the spec: `ansi_4bit_to_rgb` from the missing `colorconv`
module — resolved RGB of a 4-bit color code (palette lookup). -/
def ansi_4bit_to_rgb (c : Nat) : Option Rgb := do
  let i ← code4Index c
  palette16[i]?

/-- `_ANSI16C_I2KV`: 4-bit color code ↦ (slot, RGB). -/
def ansi16I2KV (c : Nat) : Option (Slot × Rgb) := do
  let rgb ← ansi_4bit_to_rgb c
  pure (code4Slot c, rgb)

/-- `_ANSI16C_KV2I`: (slot, RGB) ↦ 4-bit color code (inverse lookup of
`ansi16I2KV`, `none` when the RGB is not a palette entry). -/
def ansi16KV2I (k : Slot) (rgb : Rgb) : Option Nat :=
  ansi16Codes.find? (fun c => ansi16I2KV c = some (k, rgb))

/-- `_ANSI16C_STD`: the standard-intensity 4-bit color codes. -/
def ansi16Std (c : Nat) : Bool :=
  (30 ≤ c && c ≤ 37) || (40 ≤ c && c ≤ 47)

/-- `_ANSI16C_BRIGHT`: the bright-intensity 4-bit color codes. -/
def ansi16Bright (c : Nat) : Bool :=
  (90 ≤ c && c ≤ 97) || (100 ≤ c && c ≤ 107)

/-- Is the value any 4-bit color code? -/
def isAnsi16Code (c : Nat) : Bool := ansi16Std c || ansi16Bright c

/-- Squared distance between two channels (natural subtraction in both
directions; one side is zero). -/
def chanSq (a b : Nat) : Nat := (a - b + (b - a)) * (a - b + (b - a))

/-- Squared Euclidean distance between RGB values. -/
def rgbSq (a b : Rgb) : Nat :=
  chanSq a.1 b.1 + chanSq a.2.1 b.2.1 + chanSq a.2.2 b.2.2

/-- First element of `l` minimizing `f` (strict improvement only, so ties are
broken by the earliest element). -/
def argminFirst (f : α → Nat) : List α → Option α
  | [] => none
  | x :: xs =>
    match argminFirst f xs with
    | none => some x
    | some y => if f y < f x then some y else some x

/-- Modelled from the spec: `nearest_ansi_4bit_rgb` — nearest of the 16 fixed
reference RGB triples by squared Euclidean distance, ties broken by lowest
index (§4.2). -/
def nearest_ansi_4bit_rgb (rgb : Rgb) : Rgb :=
  (argminFirst (rgbSq rgb) palette16).getD (0, 0, 0)

/-- The six 6×6×6 color-cube channel levels {0, 95, 135, 175, 215, 255}. -/
def cubeLevels : List Nat := [0, 95, 135, 175, 215, 255]

/-- Level value of cube level index 0..5. -/
def cubeLevelVal (i : Nat) : Nat := if i = 0 then 0 else 55 + 40 * i

/-- Modelled from the spec: `ansi_8bit_to_rgb` — resolved RGB of an 8-bit
index: 0–15 the 4-bit palette, 16–231 the 6×6×6 cube, 232–255 the 24-step
greyscale ramp with values 8, 18, …, 238 (§3/§4.2). -/
def ansi_8bit_to_rgb (n : Nat) : Option Rgb :=
  if n < 16 then palette16[n]?
  else if n ≤ 231 then
    let m := n - 16
    some (cubeLevelVal (m / 36), cubeLevelVal (m % 36 / 6), cubeLevelVal (m % 6))
  else if n ≤ 255 then
    let v := 8 + 10 * (n - 232)
    some (v, v, v)
  else none

/-- Nearest cube level index (0..5) for one channel, ties to the lower level. -/
def nearestCubeLevel (v : Nat) : Nat :=
  (argminFirst (fun i => chanSq v (cubeLevelVal i)) (List.range 6)).getD 0

/-- Nearest greyscale-ramp step index (0..23) for a grey value, ties to the
lower step. -/
def nearestGreyStep (v : Nat) : Nat :=
  (argminFirst (fun i => chanSq v (8 + 10 * i)) (List.range 24)).getD 0

/-- Modelled from the spec: `rgb_to_ansi_8bit` — evaluates three candidate
encodings (nearest of the 16 base colors, nearest 6×6×6 cube point, nearest
greyscale-ramp step) and selects the candidate with the smallest squared
error, ties broken in the order base, cube, greyscale (§4.2). -/
def rgb_to_ansi_8bit (rgb : Rgb) : Nat :=
  let base := nearest_ansi_4bit_rgb rgb
  let baseIdx := (palette16.findIdx? (· = base)).getD 0
  let baseErr := rgbSq rgb base
  let r := nearestCubeLevel rgb.1
  let g := nearestCubeLevel rgb.2.1
  let b := nearestCubeLevel rgb.2.2
  let cubePt : Rgb := (cubeLevelVal r, cubeLevelVal g, cubeLevelVal b)
  let cubeErr := rgbSq rgb cubePt
  let gi := nearestGreyStep ((rgb.1 + rgb.2.1 + rgb.2.2) / 3)
  let gv := 8 + 10 * gi
  let greyErr := rgbSq rgb (gv, gv, gv)
  if baseErr ≤ cubeErr ∧ baseErr ≤ greyErr then baseIdx
  else if cubeErr ≤ greyErr then 16 + 36 * r + 6 * g + b
  else 232 + gi

/-- Modelled from the spec: `rgb_diff` — per-channel absolute difference
(§4.1 `ColorValue.difference`). -/
def rgb_diff (a b : Rgb) : Rgb :=
  (a.1 - b.1 + (b.1 - a.1), a.2.1 - b.2.1 + (b.2.1 - a.2.1),
   a.2.2 - b.2.2 + (b.2.2 - a.2.2))

/-! ### `rgb2ansi_color_esc` and the `colorbytes` constructors -/
/-- `_ANSI256_KEY2I`: slot ↦ extended color introducer (38 / 48). -/
def slotIntro : Slot → Nat
  | Slot.fg => 38
  | Slot.bg => 48

/-- `rgb2ansi_color_esc` (`core.py` 404–422): canonical wire payload of a
color assignment in the requested format (no `CSI`, no trailing `m`). -/
def rgb2ansi_color_esc (fmt : AnsiTyp) (mode : Slot) (rgb : Rgb) : Option Bytes :=
  match fmt with
  | AnsiTyp.a4 => do
    let c ← ansi16KV2I mode (nearest_ansi_4bit_rgb rgb)
    pure (encNat c)
  | AnsiTyp.a8 =>
    some (joinSemi
      [encNat (slotIntro mode), encNat 5, encNat (rgb_to_ansi_8bit rgb)])
  | AnsiTyp.a24 =>
    some (joinSemi
      [encNat (slotIntro mode), encNat 2, encNat rgb.1, encNat rgb.2.1,
       encNat rgb.2.2])

/-- A `colorbytes` value: wire-format class, slot, stored byte payload, and
the stored `_rgb_dict_` entry. -/
structure AnsiVal where
  typ : AnsiTyp
  slot : Slot
  content : Bytes
  rgb : Rgb
deriving DecidableEq, Repr

/-- `colorbytes.from_rgb` for a concrete subclass: quantize-and-encode, the
stored `_rgb_dict_` keeps the input RGB exactly. -/
def fromRgb (t : AnsiTyp) (k : Slot) (rgb : Rgb) : Option AnsiVal := do
  let content ← rgb2ansi_color_esc t k rgb
  pure ⟨t, k, content, rgb⟩

/-- The `match` of `colorbytes.__new__` (`core.py` 207–220) over the
semicolon-split fields: the three accepted shapes, yielding the implied
class, slot and RGB. -/
def parseTokens : List Bytes → Option (AnsiTyp × Slot × Rgb)
  | [color] => do
    let n ← parseNat color
    let (k, rgb) ← ansi16I2KV n
    pure (AnsiTyp.a4, k, rgb)
  | [kb, five, color] =>
    if (kb = [51, 56] ∨ kb = [52, 56]) ∧ five = [53] then do
      let k := if kb = [51, 56] then Slot.fg else Slot.bg
      let n ← parseNat color
      let rgb ← ansi_8bit_to_rgb n
      pure (AnsiTyp.a8, k, rgb)
    else none
  | [kb, two, r, g, b] =>
    if (kb = [51, 56] ∨ kb = [52, 56]) ∧ two = [50] then do
      let k := if kb = [51, 56] then Slot.fg else Slot.bg
      let rv ← parseNat r
      let gv ← parseNat g
      let bv ← parseNat b
      pure (AnsiTyp.a24, k, (rv, gv, bv))
    else none
  | _ => none

/-- The parsing core of `colorbytes.__new__` (`core.py` 201–228): strip
`CSI`/`m`, split on `b';'`, and match the three accepted shapes. -/
def parseColorbytes (ansi : Bytes) : Option (AnsiTyp × Slot × Rgb) :=
  parseTokens (splitSemi (dropSuf [109] (dropPre CSI ansi)))

/-- `colorbytes(__ansi)` with `cls = colorbytes` itself: parse, then (since
the parsed class is never `colorbytes`) re-encode canonically in the parsed
class's format. -/
def colorbytesNew (ansi : Bytes) : Option AnsiVal := do
  let (typ, k, rgb) ← parseColorbytes ansi
  let content ← rgb2ansi_color_esc typ k rgb
  pure ⟨typ, k, content, rgb⟩

/-- `cls(__ansi)` for a concrete subclass `cls`: parse, re-encode to `cls`'s
format only when the parsed class differs, and build the instance with the
*parsed* class (`bytes.__new__(typ, __ansi)` uses `typ`, not `cls`). -/
def subtypeNew (cls : AnsiTyp) (ansi : Bytes) : Option AnsiVal := do
  let (typ, k, rgb) ← parseColorbytes ansi
  if typ ≠ cls then
    let content ← rgb2ansi_color_esc cls k rgb
    pure ⟨typ, k, content, rgb⟩
  else
    pure ⟨typ, k, ansi, rgb⟩

/-! ### Claim C1: wire-format round-trip -/
/-- Canonical wire payload of the abstract 8-bit value `Ansi8(slot, n)`. -/
def wire8 (s : Slot) (n : Nat) : Bytes :=
  joinSemi [encNat (slotIntro s), encNat 5, encNat n]

/-- Canonical wire payload of the abstract 24-bit value
`Ansi24(slot, (r, g, b))`. -/
def wire24 (s : Slot) (r g b : Nat) : Bytes :=
  joinSemi [encNat (slotIntro s), encNat 2, encNat r, encNat g, encNat b]

/-- Boolean round-trip check for an 8-bit index (both slots). -/
def roundtrip8check (n : Nat) : Bool :=
  (colorbytesNew (wire8 Slot.fg n) ==
    (ansi_8bit_to_rgb n).map (fun rgb => ⟨AnsiTyp.a8, Slot.fg, wire8 Slot.fg n, rgb⟩))
  && (colorbytesNew (wire8 Slot.bg n) ==
    (ansi_8bit_to_rgb n).map (fun rgb => ⟨AnsiTyp.a8, Slot.bg, wire8 Slot.bg n, rgb⟩))

/-! ### The `SgrSequence` model -/
/-- A wrapped SGR parameter (`SgrParamWrapper._value_`): either a plain byte
code or a `colorbytes` value. -/
inductive SgrVal where
  | plain (b : Bytes)
  | color (c : AnsiVal)
deriving DecidableEq, Repr

/-- The stored bytes of a parameter (wrapper equality and hashing use these). -/
def SgrVal.content : SgrVal → Bytes
  | .plain b => b
  | .color c => c.content

/-- `SgrParamWrapper.is_color`. -/
def SgrVal.isColor : SgrVal → Bool
  | .plain _ => false
  | .color _ => true

/-- `SgrSequence` state: the parameter list, the `_rgb_dict_` entries and the
`_has_bright_colors_` flag (the `_bytes_` cache is derived, not stored). -/
structure Sgr where
  params : List SgrVal
  fgRgb : Option Rgb
  bgRgb : Option Rgb
  hasBright : Bool
deriving DecidableEq, Repr

/-- `SgrSequence()` with no arguments. -/
def Sgr.empty : Sgr := ⟨[], none, none, false⟩

/-- `_rgb_dict_` lookup by slot. -/
def Sgr.rgbGet (s : Sgr) : Slot → Option Rgb
  | Slot.fg => s.fgRgb
  | Slot.bg => s.bgRgb

/-- `_rgb_dict_` update by slot. -/
def Sgr.rgbSet (s : Sgr) (k : Slot) (v : Option Rgb) : Sgr :=
  match k with
  | Slot.fg => { s with fgRgb := v }
  | Slot.bg => { s with bgRgb := v }

/-- `SgrSequence.index` over byte content (parameter equality compares the
stored bytes). -/
def Sgr.indexOfContent (s : Sgr) (b : Bytes) : Option Nat :=
  s.params.findIdx? (fun p => p.content == b)

/-- `SgrSequence.get_color`: first color parameter whose `rgb_dict` holds the
given slot. -/
def Sgr.getColor (s : Sgr) (k : Slot) : Option SgrVal :=
  s.params.find? (fun p =>
    match p with
    | .color c => c.slot == k
    | .plain _ => false)

/-- `SgrSequence.values()`. -/
def Sgr.values (s : Sgr) : List Bytes := s.params.map SgrVal.content

/-- `SgrSequence.__bytes__` (`core.py` 708–714): empty sequence encodes to
empty bytes, otherwise `ESC '[' <codes joined by ';'> 'm'`. -/
def Sgr.bytes (s : Sgr) : Bytes :=
  if s.params = [] then [] else 27 :: 91 :: (joinSemi s.values ++ [109])

/-- The scan in `SgrSequence.pop`'s bold branch: look for a standard-intensity
4-bit color among the parameters; `none` models `int()` failing on a 4-bit
parameter with non-numeric payload. -/
def stdScan : List SgrVal → Option Bool
  | [] => some false
  | .plain _ :: rest => stdScan rest
  | .color c :: rest =>
    if c.typ ≠ AnsiTyp.a4 then stdScan rest
    else
      match parseNat c.content with
      | none => none
      | some v => if ansi16Std v then some true else stdScan rest

/-- `SgrSequence.pop` (`core.py` 670–691) at a valid index, with explicit
recursion fuel (each cascading self-call shrinks the parameter list, so the
list length is always enough fuel).  Returns `none` when the Python code
would raise: index out of range, deleting an absent `_rgb_dict_` key,
`int()` on a non-numeric color payload while the bright flag is set, or
popping a standard color with the bright flag set while no bold code `b'1'`
is present. -/
def popFuel : Nat → Sgr → Nat → Option (SgrVal × Sgr)
  | 0, _, _ => none
  | fuel + 1, s, i =>
    match s.params[i]? with
    | none => none
    | some obj =>
      let params' := s.params.eraseIdx i
      match obj with
      | SgrVal.color c =>
        match s.rgbGet c.slot with
        | none => none
        | some _ =>
          let s1 := (Sgr.mk params' s.fgRgb s.bgRgb s.hasBright).rgbSet c.slot none
          if s1.hasBright then
            match parseNat c.content with
            | none => none
            | some vx =>
              if isAnsi16Code vx then
                let s2 := Sgr.mk s1.params s1.fgRgb s1.bgRgb false
                if ansi16Std vx then
                  match s2.indexOfContent [49] with
                  | none => none
                  | some j => (popFuel fuel s2 j).map (fun r => (obj, r.2))
                else some (obj, s2)
              else some (obj, s1)
          else some (obj, s1)
      | SgrVal.plain b =>
        if s.hasBright ∧ b = [49] then
          match stdScan params' with
          | none => none
          | some found =>
            some (obj,
              Sgr.mk params' s.fgRgb s.bgRgb (if found then false else s.hasBright))
        else some (obj, Sgr.mk params' s.fgRgb s.bgRgb s.hasBright)

/-- `SgrSequence.pop(i)`. -/
def Sgr.pop (s : Sgr) (i : Nat) : Option (SgrVal × Sgr) :=
  popFuel s.params.length s i

/-- `SgrSequence.pop()` with the default index `-1` (last element). -/
def Sgr.popLast (s : Sgr) : Option (SgrVal × Sgr) :=
  s.pop (s.params.length - 1)

/-- The recognized SGR parameter values (`_SGR_PARAM_VALUES`, from the
`SgrParameter` enum). -/
def sgrParamValues : List Nat :=
  List.range 27 ++ [28, 29] ++ (List.range 20).map (30 + ·) ++
    [50, 52, 53, 54, 55, 60, 61, 62, 63] ++
    (List.range 8).map (90 + ·) ++ (List.range 8).map (100 + ·)

/-- The first phase of `SgrSequence.append` (`core.py` 615–630): resolve the
parameter to the value to store, folding bold into a bright color and
adjusting the bright flag. -/
def appendPrep (s : Sgr) (v : Nat) : Option (Sgr × SgrVal) :=
  match ansi16I2KV v with
  | some kv =>
    if ansi16Bright v then do
      let c ← fromRgb AnsiTyp.a4 kv.1 kv.2
      pure ({ s with hasBright := true }, SgrVal.color c)
    else
      match ({ s with hasBright := true } : Sgr).indexOfContent [49] with
      | some bIdx => do
        let (_, s2) ← ({ s with hasBright := true } : Sgr).pop bIdx
        let kv' ← ansi16I2KV (v + 60)
        let c ← fromRgb AnsiTyp.a4 kv'.1 kv'.2
        pure (s2, SgrVal.color c)
      | none => do
        let c ← fromRgb AnsiTyp.a4 kv.1 kv.2
        pure ({ s with hasBright := false }, SgrVal.color c)
  | none => pure (s, SgrVal.plain (encNat v))

/-- The second phase of `SgrSequence.append` (`core.py` 630–637): when the
new value is a color whose slot is occupied, pop the previous color for that
slot, then record the RGB entry and append the parameter. -/
def appendValue (s' : Sgr) (value : SgrVal) : Option Sgr :=
  match value with
  | SgrVal.color c => do
    let s'' ←
      match s'.rgbGet c.slot with
      | some _ => do
        let colorParam ←
          match s'.getColor c.slot with
          | some p => some p
          | none => none
        let i ←
          match s'.indexOfContent colorParam.content with
          | some i => some i
          | none => none
        let (_, spop) ← s'.pop i
        pure spop
      | none => pure s'
    let s''' := s''.rgbSet c.slot (some c.rgb)
    pure { s''' with params := s'''.params ++ [value] }
  | SgrVal.plain _ =>
    pure { s' with params := s'.params ++ [value] }

/-- `SgrSequence.append` (`core.py` 614–637).  `none` models a raised
exception (invalid parameter, or a cascading `pop` failure). -/
def Sgr.append (s : Sgr) (v : Nat) : Option Sgr :=
  if v ∉ sgrParamValues then none
  else do
    let (s', value) ← appendPrep s v
    appendValue s' value

/-! ### The `SgrSequence` constructor (`__init__`) -/
/-- An item of the iterable handed to `SgrSequence(...)`: an `int` SGR
parameter or a ready `colorbytes` value. -/
inductive InItem where
  | num (n : Nat)
  | colorItem (c : AnsiVal)
deriving DecidableEq, Repr

/-- `_gen_colorbytes` over the normalized stream (`core.py` 546–609): ints
that introduce extended colors (38/48) consume the following parameters —
`5` plus one value makes an 8-bit color, any other discriminator consumes
three values for a 24-bit color; 4-bit color codes become `ansicolor4Bit`
values via `from_rgb`; anything else becomes a plain decimal byte string.
`none` models the exceptions raised on truncated or ill-typed streams. -/
def genColorbytes : List InItem → Option (List SgrVal)
  | [] => some []
  | InItem.colorItem c :: rest => do
    pure (SgrVal.color c :: (← genColorbytes rest))
  | InItem.num v :: rest =>
    if v = 38 ∨ v = 48 then
      let k := if v = 38 then Slot.fg else Slot.bg
      match rest with
      | InItem.num 5 :: InItem.num n :: rest' => do
        let c ← subtypeNew AnsiTyp.a8 (wire8 k n)
        pure (SgrVal.color c :: (← genColorbytes rest'))
      | InItem.num _ :: InItem.num r :: InItem.num g :: InItem.num b :: rest' => do
        let c ← fromRgb AnsiTyp.a24 k (r, g, b)
        pure (SgrVal.color c :: (← genColorbytes rest'))
      | _ => none
    else
      match ansi16I2KV v with
      | some kv => do
        let c ← fromRgb AnsiTyp.a4 kv.1 kv.2
        pure (SgrVal.color c :: (← genColorbytes rest))
      | none => do
        pure (SgrVal.plain (encNat v) :: (← genColorbytes rest))

/-- Loop state of `SgrSequence.__init__` (`core.py` 764–838): accumulated
parameters, the `values` dedup set (by stored bytes), the two
`color_dict` slots (stored as the slot parameter's bytes), the
`_rgb_dict_` entries, and the `has_bright / is_bold / has_bold` flags. -/
structure InitState where
  params : List SgrVal
  seen : List Bytes
  fgSlot : Option Bytes
  bgSlot : Option Bytes
  fgRgb : Option Rgb
  bgRgb : Option Rgb
  hasBright : Bool
  isBold : Bool
  hasBold : Bool
deriving DecidableEq, Repr

/-- Remove the first parameter with the given stored bytes; `none` when no
parameter matches (`list.remove` / `pop(next(...))` raise in that case;
equality compares stored bytes). -/
def removeFirstContent (l : List SgrVal) (b : Bytes) : Option (List SgrVal) :=
  match l with
  | [] => none
  | p :: rest =>
    if p.content = b then some rest
    else (removeFirstContent rest b).map (p :: ·)

/-- `update_colors` of `SgrSequence.__init__` (`core.py` 789–799): for the
slot carried by the new color, drop the previously slotted parameter and
record the new one. -/
def updateColors (st : InitState) (param : SgrVal) (k : Slot) (rgb : Rgb) :
    Option InitState :=
  match k with
  | Slot.fg => do
    let params' ←
      match st.fgSlot with
      | some b => removeFirstContent st.params b
      | none => some st.params
    pure { st with
      params := params'
      fgSlot := some param.content
      fgRgb := some rgb }
  | Slot.bg => do
    let params' ←
      match st.bgSlot with
      | some b => removeFirstContent st.params b
      | none => some st.params
    pure { st with
      params := params'
      bgSlot := some param.content
      bgRgb := some rgb }

/-- The body of one `__init__` loop iteration (before the final
`append_param` / `add_unique`): returns the updated state and the parameter
to append (the local `x` is rebound on bright promotion). -/
def initStepCore (st : InitState) (x : SgrVal) : Option (InitState × SgrVal) :=
  if x.content = [49] then
    pure (if st.isBold then st
          else { st with isBold := true, hasBold := true }, x)
  else
    match x with
    | SgrVal.color c =>
      if c.typ = AnsiTyp.a4 then do
        let btoi ←
          match parseNat c.content with
          | some m => some m
          | none => none
        if ansi16Bright btoi then do
          let st' ← updateColors { st with hasBright := true } x c.slot c.rgb
          pure (st', x)
        else if st.isBold ∧ ansi16Std btoi then do
          let c' ← subtypeNew AnsiTyp.a4 (encNat (btoi + 60))
          let stB := { st with hasBright := true }
          let stC ←
            if st.hasBold then
              (removeFirstContent stB.params [49]).map
                (fun ps => { stB with params := ps, hasBold := false })
            else some stB
          let st' ← updateColors stC (SgrVal.color c') c'.slot c'.rgb
          pure (st', SgrVal.color c')
        else do
          let st' ← updateColors st x c.slot c.rgb
          pure (st', x)
      else do
        let st' ← updateColors st x c.slot c.rgb
        pure (st', x)
    | SgrVal.plain _ => pure (st, x)

/-- One iteration of the `__init__` loop over a generated value. -/
def initStep (st : InitState) (x : SgrVal) : Option InitState :=
  if x.content ∈ st.seen then some st
  else do
    let (st1, param) ← initStepCore st x
    pure { st1 with
      params := st1.params ++ [param],
      seen := st1.seen ++ [param.content] }

/-- The tail normalization of `__init__` (`core.py` 834–838): a trailing
reset-all parameter absorbs everything else. -/
def initFinalize (st : InitState) : Option Sgr :=
  match st.params.getLast? with
  | none => none
  | some lastP =>
    if lastP.content = [48] then
      some ⟨[lastP], none, none, false⟩
    else
      some ⟨st.params, st.fgRgb, st.bgRgb, st.hasBright⟩

/-- `SgrSequence(iterable)` with `ansi_type=None` (`core.py` 764–838). -/
def SgrInit (items : List InItem) : Option Sgr :=
  if items = [] then some Sgr.empty
  else do
    let vals ← genColorbytes items
    let st ← vals.foldlM initStep ⟨[], [], none, none, none, none,
      false, false, false⟩
    initFinalize st

/-- `_get_sgr_bitmask` (`core.py` 519–543): strip `CSI`, truncate at the
first `m` (index measured on the original bytes), strip a trailing `m`, and
read the semicolon-separated decimal fields ("bitwise equivalent to
`list(map(int, bytes.split(b';')))`", per its docstring). -/
def bitmaskInts (b : Bytes) : Option (List Nat) :=
  let stripped := dropPre CSI b
  let idx := b.findIdx (· = 109)
  let sliced := if idx < b.length then stripped.take idx else stripped
  (splitSemi (dropSuf [109] sliced)).mapM parseNat

/-- `SgrSequence.__add__` (`core.py` 696–703): `SgrSequence([*self, *other])`
— each wrapped parameter is decomposed into its integer fields and the
concatenated stream is re-parsed by the constructor. -/
def Sgr.add (a b : Sgr) : Option Sgr :=
  if a.params ++ b.params = [] then some Sgr.empty
  else do
    let intss ← (a.params ++ b.params).mapM (fun p => bitmaskInts p.content)
    SgrInit (intss.flatten.map InItem.num)

/-! ### Slot occupancy -/
/-- Does this parameter hold a color occupying slot `k`? -/
def SgrVal.slotIs (p : SgrVal) (k : Slot) : Bool :=
  match p with
  | SgrVal.color c => c.slot == k
  | SgrVal.plain _ => false

/-- Number of color parameters occupying a slot, in a parameter list. -/
def countSlot (l : List SgrVal) (k : Slot) : Nat :=
  (l.filter (fun p => p.slotIs k)).length

/-- Number of color parameters occupying a slot. -/
def Sgr.colorCount (s : Sgr) (k : Slot) : Nat :=
  countSlot s.params k

/-- A finite sequence of `append` operations, each propagating failure. -/
def applyAppends (s : Sgr) (ops : List Nat) : Option Sgr :=
  ops.foldlM Sgr.append s

/-- Well-formedness of a single stored parameter, as produced by the code:
plain parameters are decimal encodings of non-color codes; color parameters
are either a 4-bit code (whose digits determine the slot) or an extended
`38;…`/`48;…` payload (whose introducer determines the slot). -/
def SgrVal.wf : SgrVal → Bool
  | SgrVal.plain b =>
    match parseNat b with
    | some v => !isAnsi16Code v
    | none => false
  | SgrVal.color c =>
    match parseNat c.content with
    | some v => isAnsi16Code v && (code4Slot v == c.slot)
    | none =>
      (c.content.take 3 == [51, 56, 59] && c.slot == Slot.fg)
        || (c.content.take 3 == [52, 56, 59] && c.slot == Slot.bg)

/-- Representation invariant of `SgrSequence` relevant to slot exclusivity. -/
def SgrInv (s : Sgr) : Prop :=
  (∀ p ∈ s.params, p.wf = true)
  ∧ (∀ k, s.colorCount k ≤ 1)
  ∧ (∀ k, s.rgbGet k = none → s.colorCount k = 0)

/-! ### Claim C4: bright promotion and demotion -/
/-- The sequence produced by `append(BOLD); append(RED_FG)` on an empty
`SgrSequence`: a single bright-red 4-bit color, bright flag set. -/
def brightRedSgr : Sgr :=
  ⟨[SgrVal.color ⟨AnsiTyp.a4, Slot.fg, [57, 49], (255, 85, 85)⟩],
    some (255, 85, 85), none, true⟩

/-- One normalized stream element of `_gen_colorbytes` for an `int` that is
not an extended color introducer: a 4-bit color for color codes, a plain
decimal byte string otherwise. -/
def genOne (v : Nat) : Option SgrVal :=
  match ansi16I2KV v with
  | some kv => (fromRgb AnsiTyp.a4 kv.1 kv.2).map SgrVal.color
  | none => some (SgrVal.plain (encNat v))

/-- The single-entry reset sequence. -/
def resetSgr : Sgr := ⟨[SgrVal.plain [48]], none, none, false⟩

/-- The opposite slot. -/
def otherSlot : Slot → Slot
  | Slot.fg => Slot.bg
  | Slot.bg => Slot.fg

/-! ### Slot exclusivity (C2): `append` preserves the invariant -/
/-- Bounded check: whenever `_ANSI16C_I2KV` recognizes a code, building the
4-bit color value from the looked-up slot and RGB yields exactly the decimal
encoding of the code, with the slot determined by the digits. -/
def prepCharCheck (v : Nat) : Bool :=
  match ansi16I2KV v with
  | some kv => fromRgb AnsiTyp.a4 kv.1 kv.2 ==
      some ⟨AnsiTyp.a4, code4Slot v, encNat v, kv.2⟩
  | none => true

/-! ### Slot exclusivity (C2): the constructor establishes the invariant -/
/-- `color_dict` lookup by slot in the `__init__` loop state. -/
def stSlot (st : InitState) : Slot → Option Bytes
  | Slot.fg => st.fgSlot
  | Slot.bg => st.bgSlot

/-- `_rgb_dict_` lookup by slot in the `__init__` loop state. -/
def stRgb (st : InitState) : Slot → Option Rgb
  | Slot.fg => st.fgRgb
  | Slot.bg => st.bgRgb

/-- Loop invariant of `SgrSequence.__init__`: parameters well-formed, at most
one color per slot, each `color_dict` entry backed by a matching stored color
parameter (and an empty entry meaning no color of that slot at all), and an
`_rgb_dict_` entry exactly when the `color_dict` entry exists. -/
def InitInv (st : InitState) : Prop :=
  (∀ p ∈ st.params, p.wf = true)
  ∧ (∀ k, countSlot st.params k ≤ 1)
  ∧ (∀ k, match stSlot st k with
      | none => countSlot st.params k = 0
      | some b => ∃ c2 : AnsiVal, SgrVal.color c2 ∈ st.params
          ∧ c2.slot = k ∧ c2.content = b)
  ∧ (∀ k, stRgb st k = none → stSlot st k = none)

/-- Bounded check: the slot looked up by `_ANSI16C_I2KV` agrees with the slot
determined by the code's decimal digits. -/
def i2kvSlotCheck (w : Nat) : Bool :=
  match ansi16I2KV w with
  | some kv => kv.1 == code4Slot w
  | none => true

/-! ### The `ColorStr` model (C6–C10) -/
/-- `SGR_RESET` (`core.py` 45): the string `'\x1b[0m'`. -/
def SGR_RESET : Bytes := [27, 91, 48, 109]

/-- `DEFAULT_ANSI` (`core.py` 357): environment-dependent
(`ansicolor8Bit` when VT processing is enabled, `ansicolor4Bit` otherwise);
modelled as the 8-bit format.  No claim below depends on the choice. -/
def DEFAULT_ANSI : AnsiTyp := AnsiTyp.a8

/-- `ColorStr` instance state: the `_sgr_` sequence, `_base_str_`,
`_no_reset_` and `_ansi_type_`.  The `str` payload is derived
(`''.join([str(sgr), base_str, suffix])`), not stored. -/
structure ColorStr where
  sgr : Sgr
  base : Bytes
  noReset : Bool
  ansiTyp : AnsiTyp
deriving DecidableEq, Repr

/-- The serialized `str` value of a `ColorStr`
(`''.join([str(sgr), base_str, '' if no_reset else SGR_RESET])`). -/
def ColorStr.str (cs : ColorStr) : Bytes :=
  cs.sgr.bytes ++ cs.base ++ (if cs.noReset then [] else SGR_RESET)

/-- `ColorStr.__new__` (`core.py` 1423–1458) on the path where `obj` is a
plain string not starting with `CSI` and no `color_spec`/`ansi_type` is
given: `_get_color_str_vars(obj, None, None)` yields the empty sequence and
`obj` itself, `_no_reset_` comes from the keyword (default `False`). -/
def colorStrNewPlain (text : Bytes) (noReset : Bool) : ColorStr :=
  ⟨Sgr.empty, text, noReset, DEFAULT_ANSI⟩

/-- `ColorStr.__add__` with a `ColorStr` right operand (`core.py`
1277–1281): `_weak_var_update(_sgr_=self._sgr_ + other._sgr_,
_base_str_=...)` — the SGR sequences are merged through the
`SgrSequence.__add__` reconstruction and the base strings concatenated,
while every other field — including `_no_reset_` — is inherited from the
left operand. -/
def colorStrAdd (a b : ColorStr) : Option ColorStr :=
  (Sgr.add a.sgr b.sgr).map
    (fun s => { a with sgr := s, base := a.base ++ b.base })

/-- Minimal operand universe for `@`: a `ColorStr`, or a value of any other
type (whose `@` application raises `TypeError`). -/
inductive MatVal where
  | cstr (c : ColorStr)
  | nonCstr
deriving DecidableEq, Repr

/-- `ColorStr.__matmul__` (`core.py` 1402–1408): for a `ColorStr` operand,
`_weak_var_update(_sgr_=other._sgr_, _no_reset_=other.no_reset)`; for any
other operand type, `TypeError` (`none`). -/
def colorStrMatmul : ColorStr → MatVal → Option ColorStr
  | a, MatVal.cstr b => some { a with sgr := b.sgr, noReset := b.noReset }
  | _, MatVal.nonCstr => none

/-! ### `update_sgr` and `__sub__` machinery -/
/-- `SgrSequence(self._sgr_)` — re-parsing an existing sequence: each
wrapped parameter decomposes into its integer fields
(`_iter_normalized_sgr`), and the concatenated stream is re-parsed by the
constructor, recomputing flags and dictionaries from scratch. -/
def sgrReinit (s : Sgr) : Option Sgr := do
  let intss ← s.params.mapM (fun p => bitmaskInts p.content)
  SgrInit (intss.flatten.map InItem.num)

/-- The bold-demotion loop of `update_sgr` (`core.py` 1255–1261):
`for i, param in enumerate(new_sgr)` over the live list — the index keeps
advancing over the mutating sequence; each 4-bit color at the current index
is popped and re-appended demoted by 60 (`int(px) - 60`; a negative result
is not a recognized parameter, so `append` raises).  Fuel bounds the
iterator (the list never grows, so `length + 1` steps suffice). -/
def demoteFuel : Nat → Sgr → Nat → Option Sgr
  | 0, s, _ => some s
  | fuel + 1, s, i =>
    match s.params[i]? with
    | none => some s
    | some (SgrVal.plain _) => demoteFuel fuel s (i + 1)
    | some (SgrVal.color c) =>
      if c.typ = AnsiTyp.a4 then do
        let (_, s2) ← s.pop i
        let v ← parseNat c.content
        if v < 60 then none
        else do
          let s3 ← s2.append (v - 60)
          demoteFuel fuel s3 (i + 1)
      else demoteFuel fuel s (i + 1)

/-- Python `max(formats, key=formats.count)`: the first element carrying the
maximal number of occurrences. -/
def maxByCount (l : List AnsiTyp) (dflt : AnsiTyp) : AnsiTyp :=
  (l.foldl (fun acc t =>
    match acc with
    | none => some t
    | some b => if l.count b < l.count t then some t else acc) none).getD dflt

/-- `ColorStr.update_sgr` (`core.py` 1244–1275): empty input returns `self`;
the extended introducers 38/48 raise `ValueError`; otherwise the sequence is
re-parsed and each parameter is toggled — popped when its normalized bytes
are present, bold over bright colors demotes them, anything else is
appended.  The ANSI format becomes the majority format of the remaining
colors (ties to the first), or stays when no color remains. -/
def colorStrUpdateSgr (cs : ColorStr) (p : List Nat) : Option ColorStr :=
  if p = [] then some cs
  else if p.any (fun x => x == 38 || x == 48) then none
  else do
    let s0 ← sgrReinit cs.sgr
    let s1 ← p.foldlM (fun s x => do
      let gx ← genOne x
      if s.params ≠ [] ∧ gx.content ∈ s.values then do
        let i ←
          match s.indexOfContent gx.content with
          | some i => some i
          | none => none
        let (_, s2) ← s.pop i
        pure s2
      else if x = 1 ∧ s.hasBright then
        demoteFuel (s.params.length + 1) s 0
      else
        s.append x) s0
    let typ := if s1.params.any SgrVal.isColor then
        maxByCount (s1.params.filterMap (fun q =>
          match q with
          | SgrVal.color c => some c.typ
          | SgrVal.plain _ => none)) cs.ansiTyp
      else cs.ansiTyp
    pure { cs with sgr := s1, ansiTyp := typ }

/-- The `rgb_dict` setter of `SgrSequence` (`core.py` 882–900): for each
slot update, pop the color currently holding the slot (if any), then record
the new entry built by `from_rgb` and append its parameter. -/
def rgbDictSet (s : Sgr) (typ : AnsiTyp) (updates : List (Slot × Rgb)) :
    Option Sgr :=
  updates.foldlM (fun s kv => do
    let s1 ←
      if (s.rgbGet kv.1).isSome then do
        let colorParam ←
          match s.getColor kv.1 with
          | some p => some p
          | none => none
        let i ←
          match s.indexOfContent colorParam.content with
          | some i => some i
          | none => none
        let (_, spop) ← s.pop i
        pure spop
      else pure s
    let c ← fromRgb typ kv.1 kv.2
    let s2 := s1.rgbSet kv.1 (some c.rgb)
    pure { s2 with params := s2.params ++ [SgrVal.color c] }) s

/-- The per-slot difference dictionary of `ColorStr.__sub__` with a
`ColorStr` operand: shared slots map to the per-channel absolute difference,
iterated foreground first. -/
def subDiffs (a b : ColorStr) : List (Slot × Rgb) :=
  (match a.sgr.rgbGet Slot.fg, b.sgr.rgbGet Slot.fg with
   | some ra, some rb => [(Slot.fg, rgb_diff ra rb)]
   | _, _ => []) ++
  (match a.sgr.rgbGet Slot.bg, b.sgr.rgbGet Slot.bg with
   | some ra, some rb => [(Slot.bg, rgb_diff ra rb)]
   | _, _ => [])

/-- `ColorStr.__sub__` with a `ColorStr` operand (`core.py` 1465–1490): an
empty difference dictionary returns `self` unchanged; otherwise the sequence
is re-parsed and the differences installed through the `rgb_dict` setter. -/
def colorStrSub (a b : ColorStr) : Option ColorStr :=
  if subDiffs a b = [] then some a
  else do
    let s0 ← sgrReinit a.sgr
    let s1 ← rgbDictSet s0 a.ansiTyp (subDiffs a b)
    pure { a with sgr := s1 }

/-! ## Theorems -/

/-! ### Generic facts about the byte-string helpers -/
theorem decDigits_mem_lt {fuel n c : Nat} (h : c ∈ decDigits fuel n) : c < 10 := by
  induction fuel generalizing n with
  | zero => simp [decDigits] at h
  | succ fuel ih =>
    by_cases hn : n = 0
    · simp [decDigits, hn] at h
    · simp only [decDigits, if_neg hn, List.mem_cons] at h
      rcases h with h | h
      · exact h ▸ Nat.mod_lt _ (by omega)
      · exact ih h

theorem encNat_mem_digit {n c : Nat} (h : c ∈ encNat n) :
    48 ≤ c ∧ c ≤ 57 := by
  unfold encNat at h
  by_cases hn : n = 0
  · simp [hn] at h
    omega
  · simp only [if_neg hn, List.mem_map, List.mem_reverse] at h
    obtain ⟨d, hd, rfl⟩ := h
    have := decDigits_mem_lt hd
    omega

theorem decDigits_foldl {fuel n : Nat} (h : n ≤ fuel) :
    (decDigits fuel n).reverse.foldl (fun a d => 10 * a + d) 0 = n := by
  induction fuel generalizing n with
  | zero => simp [decDigits]; omega
  | succ fuel ih =>
    by_cases hn : n = 0
    · simp [decDigits, hn]
    · have hdiv : n / 10 ≤ fuel := by
        have := Nat.div_lt_self (Nat.pos_of_ne_zero hn) (by omega : 1 < 10)
        omega
      simp only [decDigits, if_neg hn, List.reverse_cons, List.foldl_append,
        List.foldl_cons, List.foldl_nil, ih hdiv]
      omega

theorem parseNat_encNat (n : Nat) : parseNat (encNat n) = some n := by
  by_cases hn : n = 0
  · subst hn; rfl
  · have hne : encNat n ≠ [] := by
      unfold encNat
      simp only [if_neg hn]
      intro hc
      have : decDigits n n ≠ [] := by
        unfold decDigits
        match n, hn with
        | m + 1, _ => simp
      simp [List.map_eq_nil_iff, List.reverse_eq_nil_iff] at hc
      exact this hc
    have hall : (encNat n).all isDigit = true := by
      rw [List.all_eq_true]
      intro c hc
      have := encNat_mem_digit hc
      simp [isDigit]
      omega
    unfold parseNat
    rw [if_pos (by simp [hne, hall])]
    congr 1
    unfold encNat
    rw [if_neg hn, List.foldl_map]
    simp only [Nat.add_sub_cancel]
    exact decDigits_foldl (Nat.le_refl n)

theorem splitSemi_ne_nil (l : Bytes) : splitSemi l ≠ [] := by
  cases l with
  | nil => simp [splitSemi]
  | cons c rest =>
    unfold splitSemi
    cases h : splitSemi rest with
    | nil => simp
    | cons h t =>
      by_cases hc : c = 59 <;> simp [hc]

theorem splitSemi_no59 {p : Bytes} (hp : ∀ c ∈ p, c ≠ 59) : splitSemi p = [p] := by
  induction p with
  | nil => rfl
  | cons c rest ih =>
    have hrest : ∀ c ∈ rest, c ≠ 59 := fun c hc => hp c (List.mem_cons_of_mem _ hc)
    simp [splitSemi, ih hrest, hp c (List.mem_cons_self c rest)]

theorem splitSemi_append59 {p : Bytes} (rest : Bytes) (hp : ∀ c ∈ p, c ≠ 59) :
    splitSemi (p ++ 59 :: rest) = p :: splitSemi rest := by
  induction p with
  | nil =>
    simp only [List.nil_append]
    cases h : splitSemi rest with
    | nil => exact absurd h (splitSemi_ne_nil rest)
    | cons hd tl => simp [splitSemi, h]
  | cons c p' ih =>
    have hp' : ∀ c ∈ p', c ≠ 59 := fun c hc => hp c (List.mem_cons_of_mem _ hc)
    simp only [List.cons_append]
    simp [splitSemi, ih hp', hp c (List.mem_cons_self c p')]

theorem dropPre_csi {a : Nat} (l : Bytes) (h : a ≠ 27) :
    dropPre CSI (a :: l) = a :: l := by
  unfold dropPre CSI
  rw [if_neg]
  intro hpre
  simp only [List.isPrefixOf, Bool.and_eq_true, beq_iff_eq] at hpre
  exact h hpre.1.symm

theorem dropSuf_m {l : Bytes} (h : ∀ c ∈ l, c ≠ 109) :
    dropSuf [109] l = l := by
  unfold dropSuf
  rw [if_neg]
  intro hsuf
  rw [List.isSuffixOf_iff_suffix] at hsuf
  exact h 109 (hsuf.subset (by simp)) rfl

set_option maxRecDepth 80000 in
theorem roundtrip8_all :
    ((List.range 256).all fun n => n == 16 || n == 231 || roundtrip8check n) = true := by
  decide

set_option maxRecDepth 8000 in
theorem roundtrip4_all : ∀ c, c < 108 → isAnsi16Code c = true →
    colorbytesNew (encNat c) =
      (ansi_4bit_to_rgb c).map
        (fun rgb => ⟨AnsiTyp.a4, code4Slot c, encNat c, rgb⟩) := by
  decide

theorem encNat_ne59 {m c : Nat} (hc : c ∈ encNat m) : c ≠ 59 := by
  have := encNat_mem_digit hc
  omega

theorem wire24_flat (s : Slot) (r g b : Nat) :
    wire24 s r g b = encNat (slotIntro s) ++ 59 ::
      (encNat 2 ++ 59 :: (encNat r ++ 59 :: (encNat g ++ 59 :: encNat b))) := rfl

theorem roundtrip24_general (s : Slot) (r g b : Nat) :
    colorbytesNew (wire24 s r g b) =
      some ⟨AnsiTyp.a24, s, wire24 s r g b, (r, g, b)⟩ := by
  have hsplit : splitSemi (wire24 s r g b) =
      [encNat (slotIntro s), encNat 2, encNat r, encNat g, encNat b] := by
    rw [wire24_flat,
      splitSemi_append59 _ (fun c hc => encNat_ne59 hc),
      splitSemi_append59 _ (fun c hc => encNat_ne59 hc),
      splitSemi_append59 _ (fun c hc => encNat_ne59 hc),
      splitSemi_append59 _ (fun c hc => encNat_ne59 hc),
      splitSemi_no59 (fun c hc => encNat_ne59 hc)]
  have hmem109 : ∀ c ∈ wire24 s r g b, c ≠ 109 := by
    intro c hc
    rw [wire24_flat] at hc
    simp only [List.mem_append, List.mem_cons] at hc
    rcases hc with h | rfl | h | rfl | h | rfl | h | rfl | h
    all_goals first
      | omega
      | (have hd := encNat_mem_digit h; omega)
  have hpre : dropPre CSI (wire24 s r g b) = wire24 s r g b := by
    cases s <;>
    · apply dropPre_csi
      decide
  have hparse : parseColorbytes (wire24 s r g b) =
      some (AnsiTyp.a24, s, (r, g, b)) := by
    unfold parseColorbytes
    rw [hpre, dropSuf_m hmem109, hsplit]
    cases s
    · show parseTokens [[51, 56], [50], encNat r, encNat g, encNat b] = _
      simp [parseTokens, parseNat_encNat]
    · show parseTokens [[52, 56], [50], encNat r, encNat g, encNat b] = _
      simp [parseTokens, parseNat_encNat]
  unfold colorbytesNew
  rw [hparse]
  cases s <;> rfl

/-- C1 (counterexample): the round-trip is *not* exact for every value.
`ansicolor8Bit(b'38;5;16')` is a value of type `ansicolor8Bit` whose bytes are
`b'38;5;16'`, but `colorbytes(bytes(c))` re-encodes it as `b'38;5;0'` (8-bit
index 16 and palette index 0 both resolve to black, and the base palette wins
the tie), so the parsed value does not have the same bytes. -/
theorem c1_roundtrip_counterexample :
    subtypeNew AnsiTyp.a8 [51, 56, 59, 53, 59, 49, 54] =
      some ⟨AnsiTyp.a8, Slot.fg, [51, 56, 59, 53, 59, 49, 54], (0, 0, 0)⟩
    ∧ colorbytesNew [51, 56, 59, 53, 59, 49, 54] =
      some ⟨AnsiTyp.a8, Slot.fg, [51, 56, 59, 53, 59, 48], (0, 0, 0)⟩
    ∧ ([51, 56, 59, 53, 59, 48] : Bytes) ≠ [51, 56, 59, 53, 59, 49, 54] := by
  refine ⟨by decide, by decide, by decide⟩

/-- C1 (amended): parsing the encoded wire bytes of a color value returns a
value with the same variant, slot, bytes and resolved RGB for every 4-bit
code, every 24-bit channel triple, and every 8-bit index except the two
palette-duplicate cube corners 16 (black) and 231 (white), which re-encode to
the equivalent canonical indices 0 and 15 (same variant, slot and RGB). -/
theorem c1_roundtrip_amended :
    (∀ code, code < 108 → isAnsi16Code code = true →
      colorbytesNew (encNat code) =
        (ansi_4bit_to_rgb code).map
          (fun rgb => ⟨AnsiTyp.a4, code4Slot code, encNat code, rgb⟩))
    ∧ (∀ s n, n < 256 → n ≠ 16 → n ≠ 231 →
      colorbytesNew (wire8 s n) =
        (ansi_8bit_to_rgb n).map (fun rgb => ⟨AnsiTyp.a8, s, wire8 s n, rgb⟩))
    ∧ (∀ s r g b, r < 256 → g < 256 → b < 256 →
      colorbytesNew (wire24 s r g b) =
        some ⟨AnsiTyp.a24, s, wire24 s r g b, (r, g, b)⟩) := by
  refine ⟨roundtrip4_all, ?_, fun s r g b _ _ _ => roundtrip24_general s r g b⟩
  intro s n hn h16 h231
  have hall := List.all_eq_true.mp roundtrip8_all n (List.mem_range.mpr hn)
  simp only [Bool.or_eq_true, beq_iff_eq] at hall
  rcases hall with (rfl | rfl) | hall
  · exact absurd rfl h16
  · exact absurd rfl h231
  · simp only [roundtrip8check, Bool.and_eq_true, beq_iff_eq] at hall
    cases s
    · exact hall.1
    · exact hall.2

/-- Witness for C1 (amended): concrete instances, one per wire format. -/
theorem c1_roundtrip_amended_witness :
    colorbytesNew (encNat 31) =
      some ⟨AnsiTyp.a4, Slot.fg, encNat 31, (170, 0, 0)⟩
    ∧ colorbytesNew (wire8 Slot.fg 5) =
      some ⟨AnsiTyp.a8, Slot.fg, wire8 Slot.fg 5, (170, 0, 170)⟩
    ∧ colorbytesNew (wire24 Slot.bg 1 2 3) =
      some ⟨AnsiTyp.a24, Slot.bg, wire24 Slot.bg 1 2 3, (1, 2, 3)⟩ := by
  refine ⟨?_, ?_, ?_⟩
  · rw [c1_roundtrip_amended.1 31 (by decide) (by decide)]
    decide
  · rw [c1_roundtrip_amended.2.1 Slot.fg 5 (by decide) (by decide) (by decide)]
    decide
  · rw [c1_roundtrip_amended.2.2 Slot.bg 1 2 3 (by decide) (by decide) (by decide)]

/-! ### Claim C5: quantization of pure white to the 8-bit format -/
/-- C5 (counterexample): under the stated algorithm (16 base colors, the
6×6×6 cube, and the greyscale ramp 8, 18, …, 238, smallest squared error,
ties in the order base–cube–greyscale), pure white (255, 255, 255) quantizes
to base-palette index 15 — which is *not* an entry of the greyscale ramp
(232–255), contradicting the claim that the greyscale ramp top is selected. -/
theorem c5_white_counterexample :
    rgb_to_ansi_8bit (255, 255, 255) = 15
    ∧ ¬ 232 ≤ rgb_to_ansi_8bit (255, 255, 255)
    ∧ rgb2ansi_color_esc AnsiTyp.a8 Slot.fg (255, 255, 255) =
        some [51, 56, 59, 53, 59, 49, 53] := by
  refine ⟨by decide, by decide, by decide⟩

/-- C5 (amended): quantizing pure white to the 8-bit format selects the base
palette's pure-white entry (index 15, bright white) — an exact match that wins
the base–cube tie — not a near-white cube entry and not the greyscale ramp,
whose top entry resolves to (238, 238, 238). -/
theorem c5_white_quantization :
    rgb2ansi_color_esc AnsiTyp.a8 Slot.fg (255, 255, 255) =
      some (wire8 Slot.fg 15)
    ∧ ansi_8bit_to_rgb 15 = some (255, 255, 255)
    ∧ ansi_8bit_to_rgb 255 = some (238, 238, 238) := by
  refine ⟨by decide, by decide, by decide⟩

/-- C4: appending bold (1) then standard red (31) to an empty `SgrSequence`
folds the pair into bright red: the sequence encodes to `ESC[91m`, holds no
explicit bold code, and has the bright flag set; popping that color and
appending bold plus red again reproduces the identical encoding. -/
theorem c4_bright_promotion :
    (Sgr.empty.append 1 >>= fun s => s.append 31) = some brightRedSgr
    ∧ brightRedSgr.bytes = [27, 91, 57, 49, 109]
    ∧ brightRedSgr.hasBright = true
    ∧ (∀ p ∈ brightRedSgr.params, p.content ≠ [49])
    ∧ ((brightRedSgr.popLast.map Prod.snd >>=
          fun s3 => s3.append 1 >>= fun s4 => s4.append 31)
        = some brightRedSgr) := by
  refine ⟨by decide, by decide, by decide, by decide, by decide⟩

/-! ### Claim C3: reset absorption -/
/-- C3 (counterexample): `SgrSequence.append(0)` does *not* absorb prior
entries, and appending reset-all twice yields a two-entry sequence, not the
single-entry sequence obtained by appending it once — even starting from the
empty sequence. -/
theorem c3_reset_counterexample :
    Sgr.empty.append 0 = some ⟨[SgrVal.plain [48]], none, none, false⟩
    ∧ (Sgr.empty.append 0 >>= fun s => s.append 0) =
        some ⟨[SgrVal.plain [48], SgrVal.plain [48]], none, none, false⟩
    ∧ ([SgrVal.plain [48], SgrVal.plain [48]] : List SgrVal) ≠
        [SgrVal.plain [48]] := by
  refine ⟨by decide, by decide, by decide⟩

theorem gen_cons_num {v : Nat} (h38 : v ≠ 38) (h48 : v ≠ 48)
    (rest : List InItem) :
    genColorbytes (InItem.num v :: rest) =
      (genOne v).bind (fun p => (genColorbytes rest).map (p :: ·)) := by
  have hif : ¬(v = 38 ∨ v = 48) := by simp [h38, h48]
  conv_lhs => rw [genColorbytes]
  rw [if_neg hif]
  unfold genOne
  cases hkv : ansi16I2KV v with
  | none =>
    cases hrest : genColorbytes rest <;> simp [hrest]
  | some kv =>
    cases hfr : fromRgb AnsiTyp.a4 kv.1 kv.2 <;>
      cases hrest : genColorbytes rest <;> simp [hfr, hrest]

theorem gen_append (l : List Nat) (rest : List InItem)
    (h : ∀ x ∈ l, x ≠ 38 ∧ x ≠ 48) :
    genColorbytes (l.map InItem.num ++ rest) =
      (genColorbytes (l.map InItem.num)).bind
        (fun a => (genColorbytes rest).map (a ++ ·)) := by
  induction l with
  | nil =>
    simp only [List.map_nil, List.nil_append]
    cases hrest : genColorbytes rest <;> simp [genColorbytes, hrest]
  | cons x l' ih =>
    have hx := h x (List.mem_cons_self x l')
    have h' : ∀ y ∈ l', y ≠ 38 ∧ y ≠ 48 :=
      fun y hy => h y (List.mem_cons_of_mem _ hy)
    simp only [List.map_cons, List.cons_append]
    rw [gen_cons_num hx.1 hx.2, gen_cons_num hx.1 hx.2, ih h']
    cases genOne x <;>
      [rfl;
        (cases genColorbytes (l'.map InItem.num) <;>
          cases genColorbytes rest <;> rfl)]

theorem encNat_inj {a b : Nat} (h : encNat a = encNat b) : a = b := by
  have ha := parseNat_encNat a
  have hb := parseNat_encNat b
  rw [h, hb] at ha
  exact (Option.some_inj.mp ha).symm

theorem genOne_content_ne48 : ∀ v, v < 108 → v ≠ 0 →
    ((genOne v).map (fun p => p.content != [48])).getD true = true := by
  decide

theorem sgr_lt108 : ∀ v ∈ sgrParamValues, v < 108 := by
  decide

theorem gen_content_ne48 (l : List Nat) (vals : List SgrVal)
    (h : ∀ x ∈ l, x ∈ sgrParamValues ∧ x ≠ 0 ∧ x ≠ 38 ∧ x ≠ 48)
    (hgen : genColorbytes (l.map InItem.num) = some vals) :
    ∀ v ∈ vals, v.content ≠ [48] := by
  induction l generalizing vals with
  | nil =>
    simp only [List.map_nil, genColorbytes] at hgen
    cases hgen
    intro v hv
    cases hv
  | cons x l' ih =>
    have hx := h x (List.mem_cons_self x l')
    have h' : ∀ y ∈ l', y ∈ sgrParamValues ∧ y ≠ 0 ∧ y ≠ 38 ∧ y ≠ 48 :=
      fun y hy => h y (List.mem_cons_of_mem _ hy)
    have hlt : x < 108 := sgr_lt108 x hx.1
    rw [List.map_cons, gen_cons_num hx.2.2.1 hx.2.2.2] at hgen
    cases hone : genOne x with
    | none => rw [hone] at hgen; cases hgen
    | some p =>
      rw [hone] at hgen
      cases hrest : genColorbytes (l'.map InItem.num) with
      | none => rw [hrest] at hgen; cases hgen
      | some vs =>
        rw [hrest] at hgen
        have heq : some (p :: vs) = some vals := hgen
        cases Option.some.inj heq
        intro v hv
        rcases List.mem_cons.mp hv with rfl | hv'
        · have := genOne_content_ne48 x hlt hx.2.1
          rw [hone] at this
          simpa using this
        · exact ih vs h' hrest v hv'

theorem std_lt48 {b : Nat} (h : ansi16Std b = true) : b < 48 := by
  simp only [ansi16Std, Bool.or_eq_true, Bool.and_eq_true, decide_eq_true_eq] at h
  omega

set_option maxRecDepth 2000 in
theorem subtype_promote : ∀ b, b < 48 → ansi16Std b = true →
    subtypeNew AnsiTyp.a4 (encNat (b + 60)) =
      (ansi16I2KV (b + 60)).map
        (fun kv => ⟨AnsiTyp.a4, kv.1, encNat (b + 60), kv.2⟩) := by
  decide

theorem updateColors_aux {st : InitState} {p : SgrVal} {k : Slot} {rgb : Rgb}
    {st' : InitState} (h : updateColors st p k rgb = some st') :
    st'.seen = st.seen ∧ st'.isBold = st.isBold ∧ st'.hasBold = st.hasBold
      ∧ st'.hasBright = st.hasBright := by
  cases k
  case fg =>
    unfold updateColors at h
    cases hfs : st.fgSlot with
    | none =>
      simp only [hfs] at h
      have h2 := Option.some.inj (show some _ = some st' from h)
      subst h2
      exact ⟨rfl, rfl, rfl, rfl⟩
    | some b =>
      simp only [hfs] at h
      cases hr : removeFirstContent st.params b with
      | none => simp [hr] at h
      | some ps =>
        simp only [hr] at h
        have h2 := Option.some.inj (show some _ = some st' from h)
        subst h2
        exact ⟨rfl, rfl, rfl, rfl⟩
  case bg =>
    unfold updateColors at h
    cases hfs : st.bgSlot with
    | none =>
      simp only [hfs] at h
      have h2 := Option.some.inj (show some _ = some st' from h)
      subst h2
      exact ⟨rfl, rfl, rfl, rfl⟩
    | some b =>
      simp only [hfs] at h
      cases hr : removeFirstContent st.params b with
      | none => simp [hr] at h
      | some ps =>
        simp only [hr] at h
        have h2 := Option.some.inj (show some _ = some st' from h)
        subst h2
        exact ⟨rfl, rfl, rfl, rfl⟩

theorem initStepCore_seen {st : InitState} {x : SgrVal} {stA : InitState}
    {param : SgrVal} (h : initStepCore st x = some (stA, param)) :
    stA.seen = st.seen ∧
      (param = x ∨ ∃ m, ansi16Std m = true ∧ m < 48 ∧
        param.content = encNat (m + 60)) := by
  unfold initStepCore at h
  by_cases h49 : x.content = [49]
  · rw [if_pos h49] at h
    cases h
    exact ⟨by split <;> rfl, Or.inl rfl⟩
  · rw [if_neg h49] at h
    cases x with
    | plain b =>
      cases h
      exact ⟨rfl, Or.inl rfl⟩
    | color c =>
      dsimp only at h
      by_cases hc4 : c.typ = AnsiTyp.a4
      · rw [if_pos hc4] at h
        cases hp : parseNat c.content with
        | none => rw [hp] at h; exact Option.noConfusion h
        | some btoi =>
          rw [hp] at h
          dsimp only at h
          simp only [Option.bind_eq_bind, Option.some_bind] at h
          by_cases hbr : ansi16Bright btoi = true
          · rw [if_pos hbr] at h
            cases hu : updateColors { st with hasBright := true }
                (SgrVal.color c) c.slot c.rgb with
            | none => simp [hu] at h
            | some stU =>
              simp only [hu, Option.some_bind] at h
              cases h
              exact ⟨(updateColors_aux hu).1, Or.inl rfl⟩
          · rw [if_neg hbr] at h
            by_cases hstd : st.isBold = true ∧ ansi16Std btoi = true
            · rw [if_pos hstd] at h
              have hlt := std_lt48 hstd.2
              simp only [Option.some_bind,
                subtype_promote btoi hlt hstd.2] at h
              cases hkv : ansi16I2KV (btoi + 60) with
              | none => simp [hkv] at h
              | some kv =>
                simp only [hkv, Option.map_some', Option.some_bind] at h
                by_cases hhb : st.hasBold = true
                · rw [if_pos hhb] at h
                  cases hr : removeFirstContent
                      ({ st with hasBright := true } : InitState).params
                      [49] with
                  | none => simp [hr] at h
                  | some ps =>
                    simp only [hr, Option.map_some', Option.some_bind] at h
                    cases hu : updateColors
                        { st with hasBright := true, params := ps, hasBold := false }
                        (SgrVal.color ⟨AnsiTyp.a4, kv.1, encNat (btoi + 60), kv.2⟩)
                        kv.1 kv.2 with
                    | none => simp [hu] at h
                    | some stU =>
                      simp only [hu, Option.some_bind] at h
                      cases h
                      exact ⟨(updateColors_aux hu).1,
                        Or.inr ⟨btoi, hstd.2, hlt, rfl⟩⟩
                · rw [if_neg hhb] at h
                  cases hu : updateColors { st with hasBright := true }
                      (SgrVal.color ⟨AnsiTyp.a4, kv.1, encNat (btoi + 60), kv.2⟩)
                      kv.1 kv.2 with
                  | none => simp [hu] at h
                  | some stU =>
                    simp only [hu, Option.some_bind] at h
                    cases h
                    exact ⟨(updateColors_aux hu).1,
                      Or.inr ⟨btoi, hstd.2, hlt, rfl⟩⟩
            · rw [if_neg hstd] at h
              cases hu : updateColors st (SgrVal.color c) c.slot c.rgb with
              | none => simp [hu] at h
              | some stU =>
                simp only [hu, Option.some_bind] at h
                cases h
                exact ⟨(updateColors_aux hu).1, Or.inl rfl⟩
      · rw [if_neg hc4] at h
        cases hu : updateColors st (SgrVal.color c) c.slot c.rgb with
        | none => simp [hu] at h
        | some stU =>
          simp only [hu, Option.some_bind] at h
          cases h
          exact ⟨(updateColors_aux hu).1, Or.inl rfl⟩

theorem fold_seen_ne48 (vals : List SgrVal) :
    ∀ st st' : InitState, (∀ v ∈ vals, v.content ≠ [48]) → [48] ∉ st.seen →
      vals.foldlM initStep st = some st' → [48] ∉ st'.seen := by
  induction vals with
  | nil =>
    intro st st' _ hst h
    cases h
    exact hst
  | cons v vs ih =>
    intro st st' hvals hst h
    rw [List.foldlM_cons] at h
    cases h1 : initStep st v with
    | none => rw [h1] at h; exact Option.noConfusion h
    | some st1 =>
      rw [h1] at h
      refine ih st1 st' (fun w hw => hvals w (List.mem_cons_of_mem _ hw)) ?_ h
      unfold initStep at h1
      by_cases hsv : v.content ∈ st.seen
      · rw [if_pos hsv] at h1
        cases h1
        exact hst
      · rw [if_neg hsv] at h1
        cases hc : initStepCore st v with
        | none => rw [hc] at h1; exact Option.noConfusion h1
        | some pr =>
          rw [hc] at h1
          obtain ⟨stA, param⟩ := pr
          have h2 := Option.some.inj (show some _ = some st1 from h1)
          subst h2
          obtain ⟨hAseen, hparam⟩ := initStepCore_seen hc
          simp only [hAseen, List.mem_append, List.mem_cons, List.not_mem_nil,
            or_false]
          rintro (h48 | h48)
          · exact hst h48
          · rcases hparam with rfl | ⟨m, _, _, hcont⟩
            · exact hvals _ (List.mem_cons_self _ _) h48.symm
            · rw [hcont] at h48
              have h0 : encNat 0 = encNat (m + 60) := h48
              have := encNat_inj h0
              omega

/-- C3 (amended): reset absorption happens at construction, not in `append`:
for any list of recognized, non-extended, non-reset parameters that itself
constructs successfully, constructing with a trailing reset-all yields the
single-entry reset sequence, and listing reset-all twice yields the same
single-entry sequence (the duplicate is dropped by the constructor's
dedup set). -/
theorem c3_reset_amended :
    ∀ l : List Nat,
      (∀ x ∈ l, x ∈ sgrParamValues ∧ x ≠ 0 ∧ x ≠ 38 ∧ x ≠ 48) →
      (l = [] ∨ (SgrInit (l.map InItem.num)).isSome) →
      SgrInit ((l ++ [0]).map InItem.num) = some resetSgr
        ∧ SgrInit ((l ++ [0, 0]).map InItem.num) = some resetSgr := by
  intro l hl hsucc
  by_cases hnil : l = []
  · subst hnil
    exact ⟨by decide, by decide⟩
  rcases hsucc with rfl | hsome
  · exact absurd rfl hnil
  unfold SgrInit at hsome
  rw [if_neg (by simpa using hnil)] at hsome
  cases hg : genColorbytes (l.map InItem.num) with
  | none => rw [hg] at hsome; simp at hsome
  | some vals =>
    rw [hg] at hsome
    simp only [Option.bind_eq_bind, Option.some_bind] at hsome
    cases hf : vals.foldlM initStep
        ⟨[], [], none, none, none, none, false, false, false⟩ with
    | none => rw [hf] at hsome; simp at hsome
    | some st =>
      have hvals48 : ∀ v ∈ vals, v.content ≠ [48] :=
        gen_content_ne48 l vals hl hg
      have hseen : [48] ∉ st.seen :=
        fold_seen_ne48 vals _ st hvals48 (by simp) hf
      have hl' : ∀ x ∈ l, x ≠ 38 ∧ x ≠ 48 :=
        fun x hx => ⟨(hl x hx).2.2.1, (hl x hx).2.2.2⟩
      have hgen1 : genColorbytes ((l ++ [0]).map InItem.num) =
          some (vals ++ [SgrVal.plain [48]]) := by
        rw [List.map_append, gen_append l _ hl', hg]
        rw [show genColorbytes ([0].map InItem.num) =
          some [SgrVal.plain [48]] from by decide]
        rfl
      have hgen2 : genColorbytes ((l ++ [0, 0]).map InItem.num) =
          some (vals ++ [SgrVal.plain [48], SgrVal.plain [48]]) := by
        rw [List.map_append, gen_append l _ hl', hg]
        rw [show genColorbytes ([0, 0].map InItem.num) =
          some [SgrVal.plain [48], SgrVal.plain [48]] from by decide]
        rfl
      have hstep1 : initStep st (SgrVal.plain [48]) =
          some { st with
            params := st.params ++ [SgrVal.plain [48]]
            seen := st.seen ++ [[48]] } := by
        unfold initStep
        rw [if_neg (show (SgrVal.plain [48]).content ∉ st.seen from hseen)]
        rfl
      have hstep2 : initStep { st with
            params := st.params ++ [SgrVal.plain [48]]
            seen := st.seen ++ [[48]] } (SgrVal.plain [48]) =
          some { st with
            params := st.params ++ [SgrVal.plain [48]]
            seen := st.seen ++ [[48]] } := by
        unfold initStep
        have hmem : (SgrVal.plain [48]).content ∈
            ({ st with
              params := st.params ++ [SgrVal.plain [48]]
              seen := st.seen ++ [[48]] } : InitState).seen := by
          simp [SgrVal.content]
        rw [if_pos hmem]
      have hfin : initFinalize { st with
            params := st.params ++ [SgrVal.plain [48]]
            seen := st.seen ++ [[48]] } = some resetSgr := by
        unfold initFinalize
        simp only [List.getLast?_concat]
        rfl
      constructor
      · unfold SgrInit
        rw [if_neg (by simp)]
        rw [hgen1]
        simp only [Option.bind_eq_bind, Option.some_bind]
        rw [List.foldlM_append, hf]
        simp [List.foldlM_cons, List.foldlM_nil, hstep1, hfin]
      · unfold SgrInit
        rw [if_neg (by simp)]
        rw [hgen2]
        simp only [Option.bind_eq_bind, Option.some_bind]
        rw [List.foldlM_append, hf]
        simp [List.foldlM_cons, List.foldlM_nil, hstep1, hstep2, hfin]

/-- Witness for C3 (amended): the concrete list `[1, 31]` (bold, red). -/
theorem c3_reset_amended_witness :
    SgrInit ([1, 31, 0].map InItem.num) = some resetSgr
      ∧ SgrInit ([1, 31, 0, 0].map InItem.num) = some resetSgr := by
  have h := c3_reset_amended [1, 31] (by decide)
    (Or.inr (by decide))
  exact h

/-! ### Slot exclusivity (C2): shape and list lemmas -/
theorem wf_plain_color_ne {b : Bytes} {c : AnsiVal}
    (hb : (SgrVal.plain b).wf = true) (hc : (SgrVal.color c).wf = true) :
    b ≠ c.content := by
  intro heq
  unfold SgrVal.wf at hb hc
  dsimp only at hb hc
  rw [heq] at hb
  cases hp : parseNat c.content with
  | none => rw [hp] at hb; exact Bool.noConfusion hb
  | some w =>
    rw [hp] at hb hc
    simp only [Bool.not_eq_true'] at hb
    simp only [Bool.and_eq_true] at hc
    rw [hc.1] at hb
    exact Bool.noConfusion hb

theorem wf_color_slot_eq {c1 c2 : AnsiVal}
    (h1 : (SgrVal.color c1).wf = true) (h2 : (SgrVal.color c2).wf = true)
    (heq : c1.content = c2.content) : c1.slot = c2.slot := by
  unfold SgrVal.wf at h1 h2
  dsimp only at h1 h2
  cases hp : parseNat c1.content with
  | some v =>
    rw [hp] at h1
    rw [heq] at hp
    rw [hp] at h2
    simp only [Bool.and_eq_true, beq_iff_eq] at h1 h2
    rw [← h1.2, ← h2.2]
  | none =>
    rw [hp] at h1
    rw [heq] at hp
    rw [hp] at h2
    rw [heq] at h1
    simp only [Bool.or_eq_true, Bool.and_eq_true, beq_iff_eq] at h1 h2
    rcases h1 with ⟨ht1, hs1⟩ | ⟨ht1, hs1⟩ <;>
      rcases h2 with ⟨ht2, hs2⟩ | ⟨ht2, hs2⟩ <;>
      simp_all

theorem countSlot_append (l1 l2 : List SgrVal) (k : Slot) :
    countSlot (l1 ++ l2) k = countSlot l1 k + countSlot l2 k := by
  simp [countSlot, List.filter_append]

theorem countSlot_cons (p : SgrVal) (l : List SgrVal) (k : Slot) :
    countSlot (p :: l) k =
      (if p.slotIs k then 1 else 0) + countSlot l k := by
  simp only [countSlot, List.filter_cons]
  split <;> simp [Nat.add_comm]

theorem getElem?_split {α : Type} {l : List α} {i : Nat} {x : α}
    (h : l[i]? = some x) :
    ∃ l1 l2, l = l1 ++ x :: l2 ∧ l1.length = i ∧ l.eraseIdx i = l1 ++ l2 := by
  induction l generalizing i with
  | nil => simp at h
  | cons a rest ih =>
    cases i with
    | zero =>
      simp only [List.getElem?_cons_zero, Option.some_inj] at h
      exact ⟨[], rest, by simp [h], rfl, by simp [List.eraseIdx]⟩
    | succ j =>
      simp only [List.getElem?_cons_succ] at h
      obtain ⟨l1, l2, hsplit, hlen, herase⟩ := ih h
      exact ⟨a :: l1, l2, by simp [hsplit], by simp [hlen],
        by simp [List.eraseIdx, herase]⟩

theorem findIdx?_split_aux {α : Type} (pred : α → Bool) :
    ∀ (l : List α) (s i : Nat), List.findIdx? pred l s = some i →
      ∃ l1 p l2, l = l1 ++ p :: l2 ∧ i = s + l1.length ∧ pred p = true ∧
        ∀ q ∈ l1, pred q = false := by
  intro l
  induction l with
  | nil => intro s i h; simp [List.findIdx?] at h
  | cons a rest ih =>
    intro s i h
    rw [List.findIdx?_cons] at h
    by_cases hp : pred a
    · rw [if_pos hp] at h
      exact ⟨[], a, rest, rfl, by simp [← Option.some.inj h], hp, by simp⟩
    · rw [if_neg hp] at h
      obtain ⟨l1, p, l2, hsplit, hidx, hpred, hfirst⟩ := ih (s + 1) i h
      refine ⟨a :: l1, p, l2, by simp [hsplit], by simp [hidx]; omega, hpred, ?_⟩
      intro q hq
      rcases List.mem_cons.mp hq with rfl | hq'
      · exact Bool.eq_false_iff.mpr hp
      · exact hfirst q hq'

theorem findIdx?_split {α : Type} (pred : α → Bool) (l : List α) (i : Nat)
    (h : l.findIdx? pred = some i) :
    ∃ l1 p l2, l = l1 ++ p :: l2 ∧ l1.length = i ∧ pred p = true ∧
      ∀ q ∈ l1, pred q = false := by
  obtain ⟨l1, p, l2, hsplit, hidx, hpred, hfirst⟩ :=
    findIdx?_split_aux pred l 0 i h
  exact ⟨l1, p, l2, hsplit, by omega, hpred, hfirst⟩

theorem find?_split {α : Type} (pred : α → Bool) :
    ∀ (l : List α) (p : α), l.find? pred = some p →
      ∃ l1 l2, l = l1 ++ p :: l2 ∧ pred p = true ∧
        ∀ q ∈ l1, pred q = false := by
  intro l
  induction l with
  | nil => intro p h; simp at h
  | cons a rest ih =>
    intro p h
    rw [List.find?_cons] at h
    by_cases hp : pred a
    · rw [hp] at h
      cases h
      exact ⟨[], rest, rfl, hp, by simp⟩
    · rw [Bool.eq_false_iff.mpr hp] at h
      obtain ⟨l1, l2, hsplit, hpred, hfirst⟩ := ih p h
      refine ⟨a :: l1, l2, by simp [hsplit], hpred, ?_⟩
      intro q hq
      rcases List.mem_cons.mp hq with rfl | hq'
      · exact Bool.eq_false_iff.mpr hp
      · exact hfirst q hq'

theorem removeFirstContent_split {b : Bytes} :
    ∀ {l l' : List SgrVal}, removeFirstContent l b = some l' →
      ∃ l1 p l2, l = l1 ++ p :: l2 ∧ p.content = b ∧ l' = l1 ++ l2 ∧
        ∀ q ∈ l1, q.content ≠ b := by
  intro l
  induction l with
  | nil => intro l' h; simp [removeFirstContent] at h
  | cons a rest ih =>
    intro l' h
    unfold removeFirstContent at h
    by_cases ha : a.content = b
    · rw [if_pos ha] at h
      cases h
      exact ⟨[], a, rest, rfl, ha, rfl, by simp⟩
    · rw [if_neg ha] at h
      cases hr : removeFirstContent rest b with
      | none => rw [hr] at h; exact Option.noConfusion h
      | some l'' =>
        rw [hr] at h
        have h2 := Option.some.inj h
        obtain ⟨l1, p, l2, hsplit, hc, hrem, hfirst⟩ := ih hr
        refine ⟨a :: l1, p, l2, by simp [hsplit], hc, by simp [← h2, hrem], ?_⟩
        intro q hq
        rcases List.mem_cons.mp hq with rfl | hq'
        · exact ha
        · exact hfirst q hq'

theorem rgbGet_rgbSet_same (s : Sgr) (k : Slot) (v : Option Rgb) :
    (s.rgbSet k v).rgbGet k = v := by cases k <;> rfl

theorem rgbGet_rgbSet_other (s : Sgr) (k : Slot) (v : Option Rgb) :
    (s.rgbSet k v).rgbGet (otherSlot k) = s.rgbGet (otherSlot k) := by
  cases k <;> rfl

theorem rgbSet_params (s : Sgr) (k : Slot) (v : Option Rgb) :
    (s.rgbSet k v).params = s.params := by cases k <;> rfl

theorem rgbSet_hasBright (s : Sgr) (k : Slot) (v : Option Rgb) :
    (s.rgbSet k v).hasBright = s.hasBright := by cases k <;> rfl

theorem otherSlot_ne (k : Slot) : otherSlot k ≠ k := by cases k <;> decide

theorem slot_eq_or_other (k k' : Slot) : k' = k ∨ k' = otherSlot k := by
  cases k <;> cases k' <;> simp [otherSlot]

theorem wf_content49_plain {p : SgrVal} (hwf : p.wf = true)
    (hc : p.content = [49]) : ∃ b, p = SgrVal.plain b := by
  cases p with
  | plain b => exact ⟨b, rfl⟩
  | color c =>
    unfold SgrVal.wf at hwf
    dsimp only at hwf
    rw [show c.content = [49] from hc] at hwf
    rw [show parseNat [49] = some 1 from rfl] at hwf
    simp [isAnsi16Code, ansi16Std, ansi16Bright] at hwf

theorem countSlot_eraseIdx_of_slot {l : List SgrVal} {i : Nat} {c : AnsiVal}
    (h : l[i]? = some (SgrVal.color c)) :
    countSlot (l.eraseIdx i) c.slot + 1 = countSlot l c.slot
    ∧ countSlot (l.eraseIdx i) (otherSlot c.slot) =
        countSlot l (otherSlot c.slot) := by
  obtain ⟨l1, l2, hsplit, _, herase⟩ := getElem?_split h
  subst hsplit
  rw [herase]
  constructor
  · rw [countSlot_append, countSlot_append, countSlot_cons]
    have hsl : (SgrVal.color c).slotIs c.slot = true := by
      simp [SgrVal.slotIs]
    rw [hsl]
    simp
    omega
  · rw [countSlot_append, countSlot_append, countSlot_cons]
    have hsl : (SgrVal.color c).slotIs (otherSlot c.slot) = false := by
      simp only [SgrVal.slotIs, beq_eq_false_iff_ne, ne_eq]
      exact fun hh => otherSlot_ne c.slot hh.symm
    rw [hsl]
    simp

theorem countSlot_eraseIdx_of_plain {l : List SgrVal} {i : Nat} {b : Bytes}
    (h : l[i]? = some (SgrVal.plain b)) (k : Slot) :
    countSlot (l.eraseIdx i) k = countSlot l k := by
  obtain ⟨l1, l2, hsplit, _, herase⟩ := getElem?_split h
  subst hsplit
  rw [herase, countSlot_append, countSlot_append, countSlot_cons]
  simp [SgrVal.slotIs]

theorem wf_eraseIdx {l : List SgrVal} (hwf : ∀ p ∈ l, p.wf = true) (i : Nat) :
    ∀ p ∈ l.eraseIdx i, p.wf = true :=
  fun p hp => hwf p (List.eraseIdx_subset l i hp)

/-- Full behavior of `pop` needed for the slot-exclusivity invariant: the
popped object comes from the list; popping a plain parameter only erases it
(possibly also erasing a bold code, which is plain); popping a color removes
one color of its slot, leaves the other slot's colors and dictionary entry
alone, and clears its own dictionary entry. -/
theorem popFuel_spec : ∀ (fuel : Nat) (s : Sgr) (i : Nat) (obj : SgrVal)
    (s' : Sgr), popFuel fuel s i = some (obj, s') →
    (∀ p ∈ s.params, p.wf = true) →
    (∀ p ∈ s'.params, p.wf = true)
    ∧ s.params[i]? = some obj
    ∧ ((∃ b, obj = SgrVal.plain b) →
        s'.params = s.params.eraseIdx i ∧ s'.fgRgb = s.fgRgb
          ∧ s'.bgRgb = s.bgRgb)
    ∧ (∀ c, obj = SgrVal.color c →
        countSlot s'.params c.slot + 1 = countSlot s.params c.slot
        ∧ countSlot s'.params (otherSlot c.slot) =
            countSlot s.params (otherSlot c.slot)
        ∧ s'.rgbGet c.slot = none
        ∧ s'.rgbGet (otherSlot c.slot) = s.rgbGet (otherSlot c.slot)) := by
  intro fuel
  induction fuel with
  | zero => intro s i obj s' h; exact absurd h (by simp [popFuel])
  | succ fuel ih =>
    intro s i obj s' h hwf
    unfold popFuel at h
    cases hobj : s.params[i]? with
    | none => rw [hobj] at h; exact Option.noConfusion h
    | some o =>
      rw [hobj] at h
      cases o with
      | plain b =>
        dsimp only at h
        by_cases hbr : s.hasBright = true ∧ b = [49]
        · rw [if_pos hbr] at h
          cases hscan : stdScan (s.params.eraseIdx i) with
          | none => rw [hscan] at h; exact Option.noConfusion h
          | some found =>
            rw [hscan] at h
            have h2 := Option.some.inj h
            cases h2
            refine ⟨wf_eraseIdx hwf i, rfl, fun _ => ⟨rfl, rfl, rfl⟩, ?_⟩
            intro c hc
            exact absurd hc (by simp)
        · rw [if_neg hbr] at h
          have h2 := Option.some.inj h
          cases h2
          refine ⟨wf_eraseIdx hwf i, rfl, fun _ => ⟨rfl, rfl, rfl⟩, ?_⟩
          intro c hc
          exact absurd hc (by simp)
      | color c =>
        dsimp only at h
        cases hrg : s.rgbGet c.slot with
        | none => rw [hrg] at h; exact Option.noConfusion h
        | some rgb0 =>
          rw [hrg] at h
          dsimp only at h
          -- fix the two `pop` result candidates as abbreviations
          set s1 : Sgr := (Sgr.mk (s.params.eraseIdx i) s.fgRgb s.bgRgb
            s.hasBright).rgbSet c.slot none with hs1
          have hs1params : s1.params = s.params.eraseIdx i := by
            rw [hs1, rgbSet_params]
          have hs1wf : ∀ p ∈ s1.params, p.wf = true := by
            rw [hs1params]
            exact wf_eraseIdx hwf i
          have hcnt := countSlot_eraseIdx_of_slot hobj
          have hs1get : s1.rgbGet c.slot = none := by
            rw [hs1]
            exact rgbGet_rgbSet_same _ _ _
          have hs1getO : s1.rgbGet (otherSlot c.slot) =
              s.rgbGet (otherSlot c.slot) := by
            rw [hs1]
            rw [rgbGet_rgbSet_other]
            cases c.slot <;> rfl
          by_cases hB : s1.hasBright = true
          · rw [if_pos hB] at h
            cases hp : parseNat c.content with
            | none => rw [hp] at h; exact Option.noConfusion h
            | some vx =>
              rw [hp] at h
              dsimp only at h
              by_cases h16 : isAnsi16Code vx = true
              · rw [if_pos h16] at h
                set s2 : Sgr := Sgr.mk s1.params s1.fgRgb s1.bgRgb false
                  with hs2
                have hs2params : s2.params = s.params.eraseIdx i := by
                  rw [hs2]
                  exact hs1params
                have hs2get : s2.rgbGet c.slot = none := by
                  rw [hs2]
                  rw [hs1]
                  cases c.slot <;> simp [Sgr.rgbSet, Sgr.rgbGet]
                have hs2getO : s2.rgbGet (otherSlot c.slot) =
                    s.rgbGet (otherSlot c.slot) := by
                  rw [hs2, hs1]
                  cases c.slot <;> simp [Sgr.rgbSet, Sgr.rgbGet, otherSlot]
                by_cases hstd : ansi16Std vx = true
                · rw [if_pos hstd] at h
                  cases hidx : s2.indexOfContent [49] with
                  | none => rw [hidx] at h; exact Option.noConfusion h
                  | some j =>
                    rw [hidx] at h
                    dsimp only at h
                    cases hrec : popFuel fuel s2 j with
                    | none => rw [hrec] at h; exact Option.noConfusion h
                    | some pr =>
                      rw [hrec] at h
                      obtain ⟨obj2, s3⟩ := pr
                      simp only [Option.map_some'] at h
                      have h2 := Option.some.inj h
                      cases h2
                      have hs2wf : ∀ p ∈ s2.params, p.wf = true := by
                        rw [hs2params]
                        exact wf_eraseIdx hwf i
                      obtain ⟨hwf3, hobj2, hplain3, _⟩ :=
                        ih s2 j obj2 s' hrec hs2wf
                      -- the popped inner parameter is the first `b'1'`,
                      -- plain by well-formedness
                      obtain ⟨l1, q, l2, hsplit, hlen, hq, _⟩ :=
                        findIdx?_split _ _ j hidx
                      have hq49 : q.content = [49] := by
                        simpa using hq
                      have hqwf : q.wf = true := by
                        apply hs2wf
                        rw [hsplit]
                        exact List.mem_append_right _ (List.mem_cons_self _ _)
                      obtain ⟨b1, rfl⟩ := wf_content49_plain hqwf hq49
                      have hj : s2.params[j]? = some (SgrVal.plain b1) := by
                        rw [hsplit, ← hlen]
                        rw [List.getElem?_append_right (Nat.le_refl _)]
                        simp
                      have hobj2q : obj2 = SgrVal.plain b1 := by
                        rw [hj] at hobj2
                        exact (Option.some.inj hobj2).symm
                      obtain ⟨hs3params, hs3fg, hs3bg⟩ :=
                        hplain3 ⟨b1, hobj2q⟩
                      have hcount3 : ∀ k, countSlot s'.params k =
                          countSlot s2.params k := by
                        intro k
                        rw [hs3params, countSlot_eraseIdx_of_plain hj k]
                      have hget3 : ∀ k, s'.rgbGet k = s2.rgbGet k := by
                        intro k
                        cases k
                        · show s'.fgRgb = s2.fgRgb
                          rw [hs3fg]
                        · show s'.bgRgb = s2.bgRgb
                          rw [hs3bg]
                      refine ⟨hwf3, rfl, ?_, ?_⟩
                      · rintro ⟨bb, hbb⟩
                        exact SgrVal.noConfusion hbb
                      · intro c2 hc2
                        cases hc2
                        refine ⟨?_, ?_, ?_, ?_⟩
                        · rw [hcount3, hs2params]
                          exact hcnt.1
                        · rw [hcount3, hs2params]
                          exact hcnt.2
                        · rw [hget3]
                          exact hs2get
                        · rw [hget3]
                          exact hs2getO
                · rw [if_neg hstd] at h
                  have h2 := Option.some.inj h
                  injection h2 with h2a h2b
                  subst h2a
                  subst h2b
                  refine ⟨?_, rfl, ?_, ?_⟩
                  · rw [hs2params]
                    exact wf_eraseIdx hwf i
                  · rintro ⟨bb, hbb⟩
                    exact SgrVal.noConfusion hbb
                  · intro c2 hc2
                    cases hc2
                    refine ⟨?_, ?_, ?_, ?_⟩
                    · rw [hs2params]
                      exact hcnt.1
                    · rw [hs2params]
                      exact hcnt.2
                    · exact hs2get
                    · exact hs2getO
              · rw [if_neg h16] at h
                have h2 := Option.some.inj h
                injection h2 with h2a h2b
                subst h2a
                subst h2b
                refine ⟨hs1wf, rfl, ?_, ?_⟩
                · rintro ⟨bb, hbb⟩
                  exact SgrVal.noConfusion hbb
                · intro c2 hc2
                  cases hc2
                  refine ⟨?_, ?_, ?_, ?_⟩
                  · rw [hs1params]
                    exact hcnt.1
                  · rw [hs1params]
                    exact hcnt.2
                  · exact hs1get
                  · exact hs1getO
          · rw [if_neg hB] at h
            have h2 := Option.some.inj h
            injection h2 with h2a h2b
            subst h2a
            subst h2b
            refine ⟨hs1wf, rfl, ?_, ?_⟩
            · rintro ⟨bb, hbb⟩
              exact SgrVal.noConfusion hbb
            · intro c2 hc2
              cases hc2
              refine ⟨?_, ?_, ?_, ?_⟩
              · rw [hs1params]
                exact hcnt.1
              · rw [hs1params]
                exact hcnt.2
              · exact hs1get
              · exact hs1getO

set_option maxRecDepth 8000 in
theorem prepChar_all : ∀ v, v < 108 → prepCharCheck v = true := by decide

set_option maxRecDepth 8000 in
theorem i2kv_isSome : ∀ v, v < 108 →
    (ansi16I2KV v).isSome = isAnsi16Code v := by decide

theorem bright60 : ∀ v, v < 48 → ansi16Std v = true →
    ansi16Bright (v + 60) = true := by decide

theorem wf_color4 {w : Nat} (h16 : isAnsi16Code w = true) (rgb : Rgb) :
    (SgrVal.color ⟨AnsiTyp.a4, code4Slot w, encNat w, rgb⟩).wf = true := by
  unfold SgrVal.wf
  dsimp only
  rw [parseNat_encNat]
  simp [h16]

theorem appendPrep_spec {s : Sgr} {v : Nat} {sX : Sgr} {value : SgrVal}
    (hv : v ∈ sgrParamValues)
    (h : appendPrep s v = some (sX, value))
    (hwf : ∀ p ∈ s.params, p.wf = true) :
    (∀ p ∈ sX.params, p.wf = true)
    ∧ (∀ k, countSlot sX.params k = countSlot s.params k)
    ∧ (∀ k, sX.rgbGet k = s.rgbGet k)
    ∧ value.wf = true := by
  have hlt : v < 108 := sgr_lt108 v hv
  unfold appendPrep at h
  cases hI : ansi16I2KV v with
  | none =>
    rw [hI] at h
    dsimp only at h
    have h2 := Option.some.inj h
    injection h2 with ha hb
    subst ha
    subst hb
    have hf : isAnsi16Code v = false := by
      have h3 := i2kv_isSome v hlt
      rw [hI] at h3
      exact h3.symm
    refine ⟨hwf, fun k => rfl, fun k => rfl, ?_⟩
    unfold SgrVal.wf
    dsimp only
    rw [parseNat_encNat]
    simp [hf]
  | some kv =>
    rw [hI] at h
    dsimp only at h
    have h16 : isAnsi16Code v = true := by
      have h3 := i2kv_isSome v hlt
      rw [hI] at h3
      exact h3.symm
    have hchar := prepChar_all v hlt
    unfold prepCharCheck at hchar
    rw [hI] at hchar
    dsimp only at hchar
    have hfr := eq_of_beq hchar
    by_cases hbr : ansi16Bright v = true
    · rw [if_pos hbr] at h
      rw [hfr] at h
      rw [Option.bind_eq_bind] at h
      simp only [Option.some_bind] at h
      have h2 := Option.some.inj h
      injection h2 with ha hb
      subst ha
      subst hb
      exact ⟨hwf, fun k => rfl, fun k => by cases k <;> rfl,
        wf_color4 h16 kv.2⟩
    · rw [if_neg hbr] at h
      have hbf : ansi16Bright v = false := Bool.eq_false_iff.mpr hbr
      have hstd : ansi16Std v = true := by
        unfold isAnsi16Code at h16
        rw [hbf] at h16
        simpa using h16
      cases hidx : ({ s with hasBright := true } : Sgr).indexOfContent [49] with
      | none =>
        rw [hidx] at h
        dsimp only at h
        rw [hfr] at h
        rw [Option.bind_eq_bind] at h
        simp only [Option.some_bind] at h
        have h2 := Option.some.inj h
        injection h2 with ha hb
        subst ha
        subst hb
        exact ⟨hwf, fun k => rfl, fun k => by cases k <;> rfl,
          wf_color4 h16 kv.2⟩
      | some bIdx =>
        rw [hidx] at h
        dsimp only at h
        cases hpop : ({ s with hasBright := true } : Sgr).pop bIdx with
        | none =>
          rw [hpop] at h
          rw [Option.bind_eq_bind] at h
          simp only [Option.none_bind] at h
          exact Option.noConfusion h
        | some pr =>
          rw [hpop] at h
          obtain ⟨obj2, s2v⟩ := pr
          rw [Option.bind_eq_bind] at h
          simp only [Option.some_bind] at h
          have hlt48 : v < 48 := std_lt48 hstd
          have hlt' : v + 60 < 108 := by omega
          have hbr' : ansi16Bright (v + 60) = true := bright60 v hlt48 hstd
          have h16' : isAnsi16Code (v + 60) = true := by
            unfold isAnsi16Code
            rw [hbr']
            simp
          have hsome' : (ansi16I2KV (v + 60)).isSome = true := by
            rw [i2kv_isSome _ hlt']
            exact h16'
          cases hI' : ansi16I2KV (v + 60) with
          | none =>
            rw [hI'] at hsome'
            exact absurd hsome' (by simp)
          | some kv' =>
            rw [hI'] at h
            simp only [Option.bind_eq_bind, Option.some_bind] at h
            have hchar' := prepChar_all (v + 60) hlt'
            unfold prepCharCheck at hchar'
            rw [hI'] at hchar'
            dsimp only at hchar'
            have hfr' := eq_of_beq hchar'
            rw [hfr'] at h
            simp only [Option.some_bind] at h
            have h2 := Option.some.inj h
            injection h2 with ha hb
            subst ha
            subst hb
            -- characterize the inner pop via the popped bold parameter
            unfold Sgr.pop at hpop
            have hwfB : ∀ p ∈ ({ s with hasBright := true } : Sgr).params,
                p.wf = true := hwf
            obtain ⟨hwf2, hobj2, hplain2, _⟩ :=
              popFuel_spec _ _ _ _ _ hpop hwfB
            unfold Sgr.indexOfContent at hidx
            obtain ⟨l1, q, l2, hsplit, hlen, hq, _⟩ :=
              findIdx?_split _ _ _ hidx
            have hq49 : q.content = [49] := by simpa using hq
            have hqwf : q.wf = true := by
              apply hwfB
              rw [hsplit]
              exact List.mem_append_right _ (List.mem_cons_self _ _)
            obtain ⟨b1, hb1⟩ := wf_content49_plain hqwf hq49
            have hj : ({ s with hasBright := true } : Sgr).params[bIdx]? =
                some (SgrVal.plain b1) := by
              rw [hsplit, ← hlen]
              rw [List.getElem?_append_right (Nat.le_refl _)]
              simp [hb1]
            have hobj2q : obj2 = SgrVal.plain b1 := by
              rw [hj] at hobj2
              exact (Option.some.inj hobj2).symm
            obtain ⟨hs2params, hs2fg, hs2bg⟩ := hplain2 ⟨b1, hobj2q⟩
            refine ⟨hwf2, ?_, ?_, wf_color4 h16' kv'.2⟩
            · intro k
              rw [hs2params, countSlot_eraseIdx_of_plain hj k]
            · intro k
              cases k
              · show s2v.fgRgb = s.fgRgb
                rw [hs2fg]
              · show s2v.bgRgb = s.bgRgb
                rw [hs2bg]

theorem rgbGet_withParams (s : Sgr) (l : List SgrVal) (k : Slot) :
    (Sgr.mk l s.fgRgb s.bgRgb s.hasBright).rgbGet k = s.rgbGet k := by
  cases k <;> rfl

theorem countSlot_single_color_same (c : AnsiVal) :
    countSlot [SgrVal.color c] c.slot = 1 := by
  simp [countSlot, SgrVal.slotIs]

theorem countSlot_single_color_other (c : AnsiVal) :
    countSlot [SgrVal.color c] (otherSlot c.slot) = 0 := by
  have hsl : (SgrVal.color c).slotIs (otherSlot c.slot) = false := by
    simp only [SgrVal.slotIs, beq_eq_false_iff_ne, ne_eq]
    exact fun hh => otherSlot_ne c.slot hh.symm
  simp [countSlot, List.filter_cons, hsl]

theorem countSlot_single_plain (b : Bytes) (k : Slot) :
    countSlot [SgrVal.plain b] k = 0 := rfl

theorem wf_append_single {l : List SgrVal} {p0 : SgrVal}
    (hwf : ∀ p ∈ l, p.wf = true) (hp0 : p0.wf = true) :
    ∀ p ∈ l ++ [p0], p.wf = true := by
  intro p hp
  rcases List.mem_append.mp hp with h1 | h2
  · exact hwf p h1
  · rw [List.mem_singleton.mp h2]
    exact hp0

theorem appendValue_inv {sX : Sgr} {value : SgrVal} {s' : Sgr}
    (hInv : SgrInv sX) (hwfv : value.wf = true)
    (h : appendValue sX value = some s') : SgrInv s' := by
  obtain ⟨hwf, hcnt, hdict⟩ := hInv
  cases value with
  | plain b =>
    unfold appendValue at h
    dsimp only at h
    have h2 := Option.some.inj h
    subst h2
    refine ⟨wf_append_single hwf hwfv, ?_, ?_⟩
    · intro k
      show countSlot (sX.params ++ [SgrVal.plain b]) k ≤ 1
      rw [countSlot_append, countSlot_single_plain]
      simpa using hcnt k
    · intro k hk
      have hk2 : sX.rgbGet k = none := by
        cases k
        · exact hk
        · exact hk
      show countSlot (sX.params ++ [SgrVal.plain b]) k = 0
      rw [countSlot_append, countSlot_single_plain]
      simpa using hdict k hk2
  | color c =>
    unfold appendValue at h
    dsimp only at h
    cases hrg : sX.rgbGet c.slot with
    | none =>
      rw [hrg] at h
      simp only [Option.bind_eq_bind, Option.pure_def, Option.some_bind] at h
      have h2 := Option.some.inj h
      subst h2
      have h0 : countSlot sX.params c.slot = 0 := hdict c.slot hrg
      refine ⟨?_, ?_, ?_⟩
      · intro p hp
        rcases List.mem_append.mp hp with h1 | h2
        · rw [rgbSet_params] at h1
          exact hwf p h1
        · rw [List.mem_singleton.mp h2]
          exact hwfv
      · intro k
        show countSlot ((sX.rgbSet c.slot (some c.rgb)).params
          ++ [SgrVal.color c]) k ≤ 1
        rw [rgbSet_params, countSlot_append]
        rcases slot_eq_or_other c.slot k with rfl | rfl
        · rw [countSlot_single_color_same, h0]
        · rw [countSlot_single_color_other]
          simpa using hcnt (otherSlot c.slot)
      · intro k hk
        rw [rgbGet_withParams] at hk
        show countSlot ((sX.rgbSet c.slot (some c.rgb)).params
          ++ [SgrVal.color c]) k = 0
        rcases slot_eq_or_other c.slot k with rfl | rfl
        · rw [rgbGet_rgbSet_same] at hk
          exact Option.noConfusion hk
        · rw [rgbGet_rgbSet_other] at hk
          rw [rgbSet_params, countSlot_append, countSlot_single_color_other]
          simpa using hdict (otherSlot c.slot) hk
    | some rgb0 =>
      rw [hrg] at h
      dsimp only at h
      cases hgc : sX.getColor c.slot with
      | none =>
        rw [hgc] at h
        dsimp only at h
        simp only [Option.bind_eq_bind, Option.none_bind] at h
        exact Option.noConfusion h
      | some p =>
        rw [hgc] at h
        dsimp only at h
        simp only [Option.bind_eq_bind, Option.some_bind] at h
        cases hio : sX.indexOfContent p.content with
        | none =>
          rw [hio] at h
          simp only [Option.none_bind] at h
          exact Option.noConfusion h
        | some i2 =>
          rw [hio] at h
          simp only [Option.some_bind] at h
          cases hpop : sX.pop i2 with
          | none =>
            rw [hpop] at h
            simp only [Option.none_bind] at h
            exact Option.noConfusion h
          | some pr =>
            rw [hpop] at h
            obtain ⟨obj2, spop⟩ := pr
            simp only [Option.some_bind, Option.pure_def] at h
            have h2 := Option.some.inj h
            subst h2
            -- identify the replaced parameter as a color of the same slot
            unfold Sgr.getColor at hgc
            obtain ⟨g1, g2, hgsplit, hgpred, _⟩ := find?_split _ _ _ hgc
            cases p with
            | plain pb => exact absurd hgpred (by simp)
            | color cp =>
              have hcp : cp.slot = c.slot := by simpa using hgpred
              unfold Sgr.indexOfContent at hio
              obtain ⟨l1, q, l2, hsplit, hlen, hqpred, _⟩ :=
                findIdx?_split _ _ _ hio
              have hqc : q.content = (SgrVal.color cp).content := by
                simpa using hqpred
              have hj : sX.params[i2]? = some q := by
                rw [hsplit, ← hlen]
                rw [List.getElem?_append_right (Nat.le_refl _)]
                simp
              have hqwf : q.wf = true := by
                apply hwf
                rw [hsplit]
                exact List.mem_append_right _ (List.mem_cons_self _ _)
              have hpwf : (SgrVal.color cp).wf = true := by
                apply hwf
                rw [hgsplit]
                exact List.mem_append_right _ (List.mem_cons_self _ _)
              cases q with
              | plain qb => exact absurd hqc (wf_plain_color_ne hqwf hpwf)
              | color cq =>
                have hslq : cq.slot = c.slot := by
                  rw [← hcp]
                  exact wf_color_slot_eq hqwf hpwf hqc
                unfold Sgr.pop at hpop
                obtain ⟨hwfP, hobjP, _, hcolP⟩ :=
                  popFuel_spec _ _ _ _ _ hpop hwf
                have hobj2 : obj2 = SgrVal.color cq := by
                  rw [hj] at hobjP
                  exact (Option.some.inj hobjP).symm
                obtain ⟨hc1, hc2, hg1, hg2⟩ := hcolP cq hobj2
                rw [hslq] at hc1 hc2 hg1 hg2
                have hcs0 : countSlot spop.params c.slot = 0 := by
                  have hle : countSlot sX.params c.slot ≤ 1 := hcnt c.slot
                  omega
                refine ⟨?_, ?_, ?_⟩
                · intro pp hpp
                  rcases List.mem_append.mp hpp with h1 | h2
                  · rw [rgbSet_params] at h1
                    exact hwfP pp h1
                  · rw [List.mem_singleton.mp h2]
                    exact hwfv
                · intro k
                  show countSlot ((spop.rgbSet c.slot (some c.rgb)).params
                    ++ [SgrVal.color c]) k ≤ 1
                  rw [rgbSet_params, countSlot_append]
                  rcases slot_eq_or_other c.slot k with rfl | rfl
                  · rw [countSlot_single_color_same, hcs0]
                  · rw [countSlot_single_color_other, hc2]
                    simpa using hcnt (otherSlot c.slot)
                · intro k hk
                  rw [rgbGet_withParams] at hk
                  show countSlot ((spop.rgbSet c.slot (some c.rgb)).params
                    ++ [SgrVal.color c]) k = 0
                  rcases slot_eq_or_other c.slot k with rfl | rfl
                  · rw [rgbGet_rgbSet_same] at hk
                    exact Option.noConfusion hk
                  · rw [rgbGet_rgbSet_other, hg2] at hk
                    rw [rgbSet_params, countSlot_append,
                      countSlot_single_color_other, hc2]
                    simpa using hdict (otherSlot c.slot) hk

theorem append_inv {s : Sgr} {v : Nat} {s' : Sgr}
    (hInv : SgrInv s) (h : Sgr.append s v = some s') : SgrInv s' := by
  unfold Sgr.append at h
  by_cases hv : v ∈ sgrParamValues
  · rw [if_neg (by simpa using hv)] at h
    cases hprep : appendPrep s v with
    | none =>
      rw [hprep] at h
      simp only [Option.bind_eq_bind, Option.none_bind] at h
      exact Option.noConfusion h
    | some pr =>
      rw [hprep] at h
      obtain ⟨sX, value⟩ := pr
      simp only [Option.bind_eq_bind, Option.some_bind] at h
      obtain ⟨hwf, hcnt, hdict⟩ := hInv
      obtain ⟨hwfX, hcntX, hgetX, hwfv⟩ := appendPrep_spec hv hprep hwf
      refine appendValue_inv ⟨hwfX, ?_, ?_⟩ hwfv h
      · intro k
        show countSlot sX.params k ≤ 1
        rw [hcntX k]
        exact hcnt k
      · intro k hk
        show countSlot sX.params k = 0
        rw [hcntX k]
        apply hdict k
        rw [← hgetX k]
        exact hk
  · rw [if_pos (by simpa using hv)] at h
    exact Option.noConfusion h

theorem applyAppends_inv : ∀ (ops : List Nat) (s s' : Sgr), SgrInv s →
    applyAppends s ops = some s' → SgrInv s' := by
  intro ops
  induction ops with
  | nil =>
    intro s s' hInv h
    have h2 : s = s' := Option.some.inj h
    exact h2 ▸ hInv
  | cons a rest ih =>
    intro s s' hInv h
    unfold applyAppends at h
    rw [List.foldlM_cons] at h
    cases ha : Sgr.append s a with
    | none =>
      rw [ha] at h
      simp only [Option.bind_eq_bind, Option.none_bind] at h
      exact Option.noConfusion h
    | some s1 =>
      rw [ha] at h
      simp only [Option.bind_eq_bind, Option.some_bind] at h
      exact ih s1 s' (append_inv hInv ha) h

set_option maxRecDepth 8000 in
theorem i2kvSlot_all : ∀ w, w < 108 → i2kvSlotCheck w = true := by decide

theorem countSlot_split_removed (l1 l2 : List SgrVal) (p0 : SgrVal) (k : Slot) :
    countSlot (l1 ++ p0 :: l2) k =
      (if p0.slotIs k then 1 else 0) + countSlot (l1 ++ l2) k := by
  rw [countSlot_append, countSlot_cons, countSlot_append]
  omega

theorem countSlot_pos_of_mem {l : List SgrVal} {c : AnsiVal}
    (h : SgrVal.color c ∈ l) {k : Slot} (hk : c.slot = k) :
    1 ≤ countSlot l k := by
  have hmem : SgrVal.color c ∈ l.filter (fun p => p.slotIs k) := by
    rw [List.mem_filter]
    exact ⟨h, by simp [SgrVal.slotIs, hk]⟩
  exact List.length_pos.mpr (List.ne_nil_of_mem hmem)

theorem updateColors_inv {st : InitState} {cp : AnsiVal} {st' : InitState}
    {k : Slot} (h : updateColors st (SgrVal.color cp) k cp.rgb = some st')
    (hwf : ∀ p ∈ st.params, p.wf = true)
    (hcnt : ∀ kk, countSlot st.params kk ≤ 1)
    (hwit : ∀ kk, match stSlot st kk with
      | none => countSlot st.params kk = 0
      | some b => ∃ c2 : AnsiVal, SgrVal.color c2 ∈ st.params
          ∧ c2.slot = kk ∧ c2.content = b) :
    (∀ p ∈ st'.params, p.wf = true)
    ∧ countSlot st'.params k = 0
    ∧ (∀ k2, k2 ≠ k → countSlot st'.params k2 = countSlot st.params k2)
    ∧ stSlot st' k = some cp.content
    ∧ stRgb st' k = some cp.rgb
    ∧ (∀ k2, k2 ≠ k → stSlot st' k2 = stSlot st k2 ∧ stRgb st' k2 = stRgb st k2)
    ∧ (∀ k2 b, k2 ≠ k → stSlot st k2 = some b →
        ∃ c2 : AnsiVal, SgrVal.color c2 ∈ st'.params
          ∧ c2.slot = k2 ∧ c2.content = b) := by
  cases k with
  | fg =>
    unfold updateColors at h
    dsimp only at h
    cases hfs : st.fgSlot with
    | none =>
      rw [hfs] at h
      simp only [Option.bind_eq_bind, Option.pure_def, Option.some_bind] at h
      have h2 := Option.some.inj h
      subst h2
      have hw := hwit Slot.fg
      simp only [stSlot] at hw
      rw [hfs] at hw
      refine ⟨hwf, hw, fun k2 _ => rfl, rfl, rfl, ?_, ?_⟩
      · intro k2 hk2
        cases k2 with
        | fg => exact absurd rfl hk2
        | bg => exact ⟨rfl, rfl⟩
      · intro k2 b hk2 hslb
        cases k2 with
        | fg => exact absurd rfl hk2
        | bg =>
          simp only [stSlot] at hslb
          have hw2 := hwit Slot.bg
          simp only [stSlot] at hw2
          rw [hslb] at hw2
          exact hw2
    | some bOld =>
      rw [hfs] at h
      dsimp only at h
      cases hr : removeFirstContent st.params bOld with
      | none =>
        rw [hr] at h
        simp only [Option.bind_eq_bind, Option.none_bind] at h
        exact Option.noConfusion h
      | some ps =>
        rw [hr] at h
        simp only [Option.bind_eq_bind, Option.pure_def, Option.some_bind] at h
        have h2 := Option.some.inj h
        subst h2
        obtain ⟨l1, p0, l2, hsplit, hp0c, hl', hfirst⟩ :=
          removeFirstContent_split hr
        have hwfg := hwit Slot.fg
        simp only [stSlot] at hwfg
        rw [hfs] at hwfg
        obtain ⟨cw, hcwmem, hcwslot, hcwcont⟩ := hwfg
        have hp0wf : p0.wf = true := by
          apply hwf
          rw [hsplit]
          exact List.mem_append_right _ (List.mem_cons_self _ _)
        have hcwwf : (SgrVal.color cw).wf = true := hwf _ hcwmem
        cases p0 with
        | plain pb =>
          exact absurd (hp0c.trans hcwcont.symm)
            (wf_plain_color_ne hp0wf hcwwf)
        | color cp0 =>
          have hsl0 : cp0.slot = Slot.fg := by
            rw [← hcwslot]
            exact wf_color_slot_eq hp0wf hcwwf (hp0c.trans hcwcont.symm)
          have hcounts : ∀ kk, countSlot st.params kk =
              (if (SgrVal.color cp0).slotIs kk then 1 else 0)
                + countSlot ps kk := by
            intro kk
            rw [hsplit, hl']
            exact countSlot_split_removed l1 l2 _ kk
          have hsub : ∀ p ∈ ps, p ∈ st.params := by
            intro p hp
            rw [hl'] at hp
            rw [hsplit]
            rcases List.mem_append.mp hp with h1 | h2
            · exact List.mem_append_left _ h1
            · exact List.mem_append_right _ (List.mem_cons_of_mem _ h2)
          refine ⟨fun p hp => hwf p (hsub p hp), ?_, ?_, rfl, rfl, ?_, ?_⟩
          · have hc := hcounts Slot.fg
            have hsl : (SgrVal.color cp0).slotIs Slot.fg = true := by
              simp [SgrVal.slotIs, hsl0]
            rw [hsl] at hc
            simp only [if_true, if_false, Bool.false_eq_true] at hc
            have hle := hcnt Slot.fg
            show countSlot ps Slot.fg = 0
            omega
          · intro k2 hk2
            have hc := hcounts k2
            have hsl : (SgrVal.color cp0).slotIs k2 = false := by
              simp only [SgrVal.slotIs, beq_eq_false_iff_ne, ne_eq, hsl0]
              exact fun hh => hk2 hh.symm
            rw [hsl] at hc
            simp only [if_true, if_false, Bool.false_eq_true] at hc
            show countSlot ps k2 = countSlot st.params k2
            omega
          · intro k2 hk2
            cases k2 with
            | fg => exact absurd rfl hk2
            | bg => exact ⟨rfl, rfl⟩
          · intro k2 b hk2 hslb
            cases k2 with
            | fg => exact absurd rfl hk2
            | bg =>
              simp only [stSlot] at hslb
              have hw2 := hwit Slot.bg
              simp only [stSlot] at hw2
              rw [hslb] at hw2
              obtain ⟨c2, hc2mem, hc2slot, hc2cont⟩ := hw2
              have hc2wf := hwf _ hc2mem
              have hne : c2.content ≠ bOld := by
                intro hEq
                have hslots : c2.slot = cw.slot :=
                  wf_color_slot_eq hc2wf hcwwf (hEq.trans hcwcont.symm)
                rw [hc2slot, hcwslot] at hslots
                exact Slot.noConfusion hslots
              have hc2ps : SgrVal.color c2 ∈ ps := by
                rw [hl']
                rw [hsplit] at hc2mem
                rcases List.mem_append.mp hc2mem with h1 | h2
                · exact List.mem_append_left _ h1
                · rcases List.mem_cons.mp h2 with hEq | h3
                  · have hcc : c2.content = bOld := by
                      rw [show c2 = cp0 from SgrVal.color.inj hEq]
                      exact hp0c
                    exact absurd hcc hne
                  · exact List.mem_append_right _ h3
              exact ⟨c2, hc2ps, hc2slot, hc2cont⟩
  | bg =>
    unfold updateColors at h
    dsimp only at h
    cases hfs : st.bgSlot with
    | none =>
      rw [hfs] at h
      simp only [Option.bind_eq_bind, Option.pure_def, Option.some_bind] at h
      have h2 := Option.some.inj h
      subst h2
      have hw := hwit Slot.bg
      simp only [stSlot] at hw
      rw [hfs] at hw
      refine ⟨hwf, hw, fun k2 _ => rfl, rfl, rfl, ?_, ?_⟩
      · intro k2 hk2
        cases k2 with
        | bg => exact absurd rfl hk2
        | fg => exact ⟨rfl, rfl⟩
      · intro k2 b hk2 hslb
        cases k2 with
        | bg => exact absurd rfl hk2
        | fg =>
          simp only [stSlot] at hslb
          have hw2 := hwit Slot.fg
          simp only [stSlot] at hw2
          rw [hslb] at hw2
          exact hw2
    | some bOld =>
      rw [hfs] at h
      dsimp only at h
      cases hr : removeFirstContent st.params bOld with
      | none =>
        rw [hr] at h
        simp only [Option.bind_eq_bind, Option.none_bind] at h
        exact Option.noConfusion h
      | some ps =>
        rw [hr] at h
        simp only [Option.bind_eq_bind, Option.pure_def, Option.some_bind] at h
        have h2 := Option.some.inj h
        subst h2
        obtain ⟨l1, p0, l2, hsplit, hp0c, hl', hfirst⟩ :=
          removeFirstContent_split hr
        have hwbg := hwit Slot.bg
        simp only [stSlot] at hwbg
        rw [hfs] at hwbg
        obtain ⟨cw, hcwmem, hcwslot, hcwcont⟩ := hwbg
        have hp0wf : p0.wf = true := by
          apply hwf
          rw [hsplit]
          exact List.mem_append_right _ (List.mem_cons_self _ _)
        have hcwwf : (SgrVal.color cw).wf = true := hwf _ hcwmem
        cases p0 with
        | plain pb =>
          exact absurd (hp0c.trans hcwcont.symm)
            (wf_plain_color_ne hp0wf hcwwf)
        | color cp0 =>
          have hsl0 : cp0.slot = Slot.bg := by
            rw [← hcwslot]
            exact wf_color_slot_eq hp0wf hcwwf (hp0c.trans hcwcont.symm)
          have hcounts : ∀ kk, countSlot st.params kk =
              (if (SgrVal.color cp0).slotIs kk then 1 else 0)
                + countSlot ps kk := by
            intro kk
            rw [hsplit, hl']
            exact countSlot_split_removed l1 l2 _ kk
          have hsub : ∀ p ∈ ps, p ∈ st.params := by
            intro p hp
            rw [hl'] at hp
            rw [hsplit]
            rcases List.mem_append.mp hp with h1 | h2
            · exact List.mem_append_left _ h1
            · exact List.mem_append_right _ (List.mem_cons_of_mem _ h2)
          refine ⟨fun p hp => hwf p (hsub p hp), ?_, ?_, rfl, rfl, ?_, ?_⟩
          · have hc := hcounts Slot.bg
            have hsl : (SgrVal.color cp0).slotIs Slot.bg = true := by
              simp [SgrVal.slotIs, hsl0]
            rw [hsl] at hc
            simp only [if_true, if_false, Bool.false_eq_true] at hc
            have hle := hcnt Slot.bg
            show countSlot ps Slot.bg = 0
            omega
          · intro k2 hk2
            have hc := hcounts k2
            have hsl : (SgrVal.color cp0).slotIs k2 = false := by
              simp only [SgrVal.slotIs, beq_eq_false_iff_ne, ne_eq, hsl0]
              exact fun hh => hk2 hh.symm
            rw [hsl] at hc
            simp only [if_true, if_false, Bool.false_eq_true] at hc
            show countSlot ps k2 = countSlot st.params k2
            omega
          · intro k2 hk2
            cases k2 with
            | bg => exact absurd rfl hk2
            | fg => exact ⟨rfl, rfl⟩
          · intro k2 b hk2 hslb
            cases k2 with
            | bg => exact absurd rfl hk2
            | fg =>
              simp only [stSlot] at hslb
              have hw2 := hwit Slot.fg
              simp only [stSlot] at hw2
              rw [hslb] at hw2
              obtain ⟨c2, hc2mem, hc2slot, hc2cont⟩ := hw2
              have hc2wf := hwf _ hc2mem
              have hne : c2.content ≠ bOld := by
                intro hEq
                have hslots : c2.slot = cw.slot :=
                  wf_color_slot_eq hc2wf hcwwf (hEq.trans hcwcont.symm)
                rw [hc2slot, hcwslot] at hslots
                exact Slot.noConfusion hslots
              have hc2ps : SgrVal.color c2 ∈ ps := by
                rw [hl']
                rw [hsplit] at hc2mem
                rcases List.mem_append.mp hc2mem with h1 | h2
                · exact List.mem_append_left _ h1
                · rcases List.mem_cons.mp h2 with hEq | h3
                  · have hcc : c2.content = bOld := by
                      rw [show c2 = cp0 from SgrVal.color.inj hEq]
                      exact hp0c
                    exact absurd hcc hne
                  · exact List.mem_append_right _ h3
              exact ⟨c2, hc2ps, hc2slot, hc2cont⟩

theorem removeBold_facts {l ps : List SgrVal} (hwf : ∀ p ∈ l, p.wf = true)
    (hr : removeFirstContent l [49] = some ps) :
    (∀ p ∈ ps, p ∈ l)
    ∧ (∀ k, countSlot ps k = countSlot l k)
    ∧ (∀ c2 : AnsiVal, SgrVal.color c2 ∈ l → SgrVal.color c2 ∈ ps) := by
  obtain ⟨l1, p0, l2, hsplit, hp0c, hl', hfirst⟩ := removeFirstContent_split hr
  have hp0wf : p0.wf = true := by
    apply hwf
    rw [hsplit]
    exact List.mem_append_right _ (List.mem_cons_self _ _)
  obtain ⟨b0, hb0⟩ := wf_content49_plain hp0wf hp0c
  subst hb0
  refine ⟨?_, ?_, ?_⟩
  · intro p hp
    rw [hl'] at hp
    rw [hsplit]
    rcases List.mem_append.mp hp with h1 | h2
    · exact List.mem_append_left _ h1
    · exact List.mem_append_right _ (List.mem_cons_of_mem _ h2)
  · intro k
    have hc := countSlot_split_removed l1 l2 (SgrVal.plain b0) k
    rw [← hsplit, ← hl'] at hc
    have hpl : (SgrVal.plain b0).slotIs k = false := rfl
    rw [hpl] at hc
    simp only [if_true, if_false, Bool.false_eq_true] at hc
    omega
  · intro c2 hc2
    rw [hsplit] at hc2
    rw [hl']
    rcases List.mem_append.mp hc2 with h1 | h2
    · exact List.mem_append_left _ h1
    · rcases List.mem_cons.mp h2 with hEq | h3
      · exact SgrVal.noConfusion hEq
      · exact List.mem_append_right _ h3

theorem initStepCore_inv {st : InitState} {x : SgrVal} {stA : InitState}
    {param : SgrVal} (h : initStepCore st x = some (stA, param))
    (hxwf : x.wf = true)
    (hwf : ∀ p ∈ st.params, p.wf = true)
    (hcnt : ∀ kk, countSlot st.params kk ≤ 1)
    (hwit : ∀ kk, match stSlot st kk with
      | none => countSlot st.params kk = 0
      | some b => ∃ c2 : AnsiVal, SgrVal.color c2 ∈ st.params
          ∧ c2.slot = kk ∧ c2.content = b) :
    (∀ p ∈ stA.params, p.wf = true)
    ∧ param.wf = true
    ∧ ((∃ b, param = SgrVal.plain b) →
        stA.params = st.params ∧ (∀ kk, stSlot stA kk = stSlot st kk)
          ∧ (∀ kk, stRgb stA kk = stRgb st kk))
    ∧ (∀ c, param = SgrVal.color c →
        countSlot stA.params c.slot = 0
        ∧ (∀ k2, k2 ≠ c.slot → countSlot stA.params k2 = countSlot st.params k2)
        ∧ stSlot stA c.slot = some c.content
        ∧ stRgb stA c.slot = some c.rgb
        ∧ (∀ k2, k2 ≠ c.slot → stSlot stA k2 = stSlot st k2
            ∧ stRgb stA k2 = stRgb st k2)
        ∧ (∀ k2 b, k2 ≠ c.slot → stSlot st k2 = some b →
            ∃ c2 : AnsiVal, SgrVal.color c2 ∈ stA.params
              ∧ c2.slot = k2 ∧ c2.content = b)) := by
  unfold initStepCore at h
  by_cases h49 : x.content = [49]
  · rw [if_pos h49] at h
    obtain ⟨b0, hb0⟩ := wf_content49_plain hxwf h49
    subst hb0
    by_cases hbold : st.isBold = true
    · rw [if_pos hbold] at h
      cases h
      exact ⟨hwf, hxwf, fun _ => ⟨rfl, fun kk => rfl, fun kk => rfl⟩,
        fun c hc => SgrVal.noConfusion hc⟩
    · rw [if_neg hbold] at h
      cases h
      exact ⟨hwf, hxwf,
        fun _ => ⟨rfl, fun kk => by cases kk <;> rfl,
          fun kk => by cases kk <;> rfl⟩,
        fun c hc => SgrVal.noConfusion hc⟩
  · rw [if_neg h49] at h
    cases x with
    | plain b =>
      cases h
      exact ⟨hwf, hxwf, fun _ => ⟨rfl, fun kk => rfl, fun kk => rfl⟩,
        fun c hc => SgrVal.noConfusion hc⟩
    | color c0 =>
      dsimp only at h
      by_cases hc4 : c0.typ = AnsiTyp.a4
      · rw [if_pos hc4] at h
        cases hp : parseNat c0.content with
        | none => rw [hp] at h; exact Option.noConfusion h
        | some btoi =>
          rw [hp] at h
          dsimp only at h
          simp only [Option.bind_eq_bind, Option.some_bind] at h
          by_cases hbr : ansi16Bright btoi = true
          · rw [if_pos hbr] at h
            cases hu : updateColors { st with hasBright := true }
                (SgrVal.color c0) c0.slot c0.rgb with
            | none => simp [hu] at h
            | some stU =>
              simp only [hu, Option.some_bind] at h
              cases h
              obtain ⟨hA1, hA2, hA3, hA4, hA5, hA6, hA7⟩ :=
                updateColors_inv hu hwf hcnt hwit
              refine ⟨hA1, hxwf, fun hpl => ?_, fun c hc => ?_⟩
              · obtain ⟨b, hb⟩ := hpl
                exact SgrVal.noConfusion hb
              · have hcc := SgrVal.color.inj hc
                subst hcc
                exact ⟨hA2, hA3, hA4, hA5, hA6, hA7⟩
          · rw [if_neg hbr] at h
            by_cases hstd : st.isBold = true ∧ ansi16Std btoi = true
            · rw [if_pos hstd] at h
              have hlt := std_lt48 hstd.2
              simp only [Option.some_bind,
                subtype_promote btoi hlt hstd.2] at h
              cases hkv : ansi16I2KV (btoi + 60) with
              | none => simp [hkv] at h
              | some kv =>
                simp only [hkv, Option.map_some', Option.some_bind] at h
                have hw108 : btoi + 60 < 108 := by omega
                have hbrw : ansi16Bright (btoi + 60) = true :=
                  bright60 btoi hlt hstd.2
                have h16w : isAnsi16Code (btoi + 60) = true := by
                  unfold isAnsi16Code
                  rw [hbrw]
                  simp
                have hkvslot : kv.1 = code4Slot (btoi + 60) := by
                  have hh := i2kvSlot_all (btoi + 60) hw108
                  unfold i2kvSlotCheck at hh
                  rw [hkv] at hh
                  exact eq_of_beq hh
                have hwfc' : (SgrVal.color
                    ⟨AnsiTyp.a4, kv.1, encNat (btoi + 60), kv.2⟩).wf = true := by
                  rw [hkvslot]
                  exact wf_color4 h16w kv.2
                by_cases hhb : st.hasBold = true
                · rw [if_pos hhb] at h
                  cases hr : removeFirstContent
                      ({ st with hasBright := true } : InitState).params
                      [49] with
                  | none => simp [hr] at h
                  | some ps =>
                    simp only [hr, Option.map_some', Option.some_bind] at h
                    obtain ⟨hsub, hcnteq, hcolpres⟩ := removeBold_facts hwf hr
                    cases hu : updateColors
                        { st with hasBright := true, params := ps, hasBold := false }
                        (SgrVal.color ⟨AnsiTyp.a4, kv.1, encNat (btoi + 60), kv.2⟩)
                        kv.1 kv.2 with
                    | none => simp [hu] at h
                    | some stU =>
                      simp only [hu, Option.some_bind] at h
                      cases h
                      have hwfC : ∀ p ∈ ps, p.wf = true :=
                        fun p hp => hwf p (hsub p hp)
                      have hcntC : ∀ kk, countSlot ps kk ≤ 1 := by
                        intro kk
                        rw [hcnteq kk]
                        exact hcnt kk
                      have hwitC : ∀ kk, match stSlot st kk with
                          | none => countSlot ps kk = 0
                          | some b => ∃ c2 : AnsiVal, SgrVal.color c2 ∈ ps
                              ∧ c2.slot = kk ∧ c2.content = b := by
                        intro kk
                        have hw := hwit kk
                        cases hsl : stSlot st kk with
                        | none =>
                          rw [hsl] at hw
                          show countSlot ps kk = 0
                          rw [hcnteq kk]
                          exact hw
                        | some b =>
                          rw [hsl] at hw
                          have hw2 : ∃ c2 : AnsiVal,
                              SgrVal.color c2 ∈ st.params
                                ∧ c2.slot = kk ∧ c2.content = b := hw
                          obtain ⟨c2, hc2mem, hc2slot, hc2cont⟩ := hw2
                          exact ⟨c2, hcolpres c2 hc2mem, hc2slot, hc2cont⟩
                      obtain ⟨hA1, hA2, hA3, hA4, hA5, hA6, hA7⟩ :=
                        updateColors_inv hu hwfC hcntC hwitC
                      refine ⟨hA1, hwfc', fun hpl => ?_, fun c hc => ?_⟩
                      · obtain ⟨b, hb⟩ := hpl
                        exact SgrVal.noConfusion hb
                      · have hcc := SgrVal.color.inj hc
                        subst hcc
                        refine ⟨hA2, ?_, hA4, hA5, hA6, hA7⟩
                        intro k2 hk2
                        rw [hA3 k2 hk2]
                        exact hcnteq k2
                · rw [if_neg hhb] at h
                  cases hu : updateColors { st with hasBright := true }
                      (SgrVal.color ⟨AnsiTyp.a4, kv.1, encNat (btoi + 60), kv.2⟩)
                      kv.1 kv.2 with
                  | none => simp [hu] at h
                  | some stU =>
                    simp only [hu, Option.some_bind] at h
                    cases h
                    obtain ⟨hA1, hA2, hA3, hA4, hA5, hA6, hA7⟩ :=
                      updateColors_inv hu hwf hcnt hwit
                    refine ⟨hA1, hwfc', fun hpl => ?_, fun c hc => ?_⟩
                    · obtain ⟨b, hb⟩ := hpl
                      exact SgrVal.noConfusion hb
                    · have hcc := SgrVal.color.inj hc
                      subst hcc
                      exact ⟨hA2, hA3, hA4, hA5, hA6, hA7⟩
            · rw [if_neg hstd] at h
              cases hu : updateColors st (SgrVal.color c0) c0.slot c0.rgb with
              | none => simp [hu] at h
              | some stU =>
                simp only [hu, Option.some_bind] at h
                cases h
                obtain ⟨hA1, hA2, hA3, hA4, hA5, hA6, hA7⟩ :=
                  updateColors_inv hu hwf hcnt hwit
                refine ⟨hA1, hxwf, fun hpl => ?_, fun c hc => ?_⟩
                · obtain ⟨b, hb⟩ := hpl
                  exact SgrVal.noConfusion hb
                · have hcc := SgrVal.color.inj hc
                  subst hcc
                  exact ⟨hA2, hA3, hA4, hA5, hA6, hA7⟩
      · rw [if_neg hc4] at h
        cases hu : updateColors st (SgrVal.color c0) c0.slot c0.rgb with
        | none => simp [hu] at h
        | some stU =>
          simp only [hu, Option.some_bind] at h
          cases h
          obtain ⟨hA1, hA2, hA3, hA4, hA5, hA6, hA7⟩ :=
            updateColors_inv hu hwf hcnt hwit
          refine ⟨hA1, hxwf, fun hpl => ?_, fun c hc => ?_⟩
          · obtain ⟨b, hb⟩ := hpl
            exact SgrVal.noConfusion hb
          · have hcc := SgrVal.color.inj hc
            subst hcc
            exact ⟨hA2, hA3, hA4, hA5, hA6, hA7⟩

theorem i2kv_some_lt {v : Nat} {kv : Slot × Rgb}
    (h : ansi16I2KV v = some kv) : isAnsi16Code v = true ∧ v < 108 := by
  have hb : (30 ≤ v ∧ v ≤ 37) ∨ (40 ≤ v ∧ v ≤ 47)
      ∨ (90 ≤ v ∧ v ≤ 97) ∨ (100 ≤ v ∧ v ≤ 107) := by
    by_cases h1 : 30 ≤ v ∧ v ≤ 37
    · exact Or.inl h1
    · by_cases h2 : 40 ≤ v ∧ v ≤ 47
      · exact Or.inr (Or.inl h2)
      · by_cases h3 : 90 ≤ v ∧ v ≤ 97
        · exact Or.inr (Or.inr (Or.inl h3))
        · by_cases h4 : 100 ≤ v ∧ v ≤ 107
          · exact Or.inr (Or.inr (Or.inr h4))
          · exfalso
            unfold ansi16I2KV ansi_4bit_to_rgb code4Index at h
            rw [if_neg h1, if_neg h2, if_neg h3, if_neg h4] at h
            simp at h
  constructor
  · simp only [isAnsi16Code, ansi16Std, ansi16Bright, Bool.or_eq_true,
      Bool.and_eq_true, decide_eq_true_eq]
    rcases hb with h' | h' | h' | h' <;> omega
  · rcases hb with h' | h' | h' | h' <;> omega

theorem fromRgb_a24_eq (k : Slot) (r g b : Nat) :
    fromRgb AnsiTyp.a24 k (r, g, b) =
      some ⟨AnsiTyp.a24, k, wire24 k r g b, (r, g, b)⟩ := rfl

theorem wf_wire24 (k : Slot) (r g b : Nat) (rgb : Rgb) :
    (SgrVal.color ⟨AnsiTyp.a24, k, wire24 k r g b, rgb⟩).wf = true := by
  cases k <;> rfl

theorem parse_wire8 (k : Slot) (nn : Nat) :
    parseColorbytes (wire8 k nn) =
      (ansi_8bit_to_rgb nn).map (fun rgb => (AnsiTyp.a8, k, rgb)) := by
  have hflat : wire8 k nn =
      encNat (slotIntro k) ++ 59 :: (encNat 5 ++ 59 :: encNat nn) := rfl
  have hsplit : splitSemi (wire8 k nn) =
      [encNat (slotIntro k), encNat 5, encNat nn] := by
    rw [hflat, splitSemi_append59 _ (fun c hc => encNat_ne59 hc),
      splitSemi_append59 _ (fun c hc => encNat_ne59 hc),
      splitSemi_no59 (fun c hc => encNat_ne59 hc)]
  have hmem109 : ∀ c ∈ wire8 k nn, c ≠ 109 := by
    intro c hc
    rw [hflat] at hc
    simp only [List.mem_append, List.mem_cons] at hc
    rcases hc with h | rfl | h | rfl | h
    all_goals first
      | omega
      | (have hd := encNat_mem_digit h; omega)
  have hpre : dropPre CSI (wire8 k nn) = wire8 k nn := by
    cases k <;>
    · apply dropPre_csi
      decide
  unfold parseColorbytes
  rw [hpre, dropSuf_m hmem109, hsplit]
  cases k
  · show parseTokens [[51, 56], [53], encNat nn] = _
    cases h8 : ansi_8bit_to_rgb nn <;>
      simp [parseTokens, parseNat_encNat, h8]
  · show parseTokens [[52, 56], [53], encNat nn] = _
    cases h8 : ansi_8bit_to_rgb nn <;>
      simp [parseTokens, parseNat_encNat, h8]

theorem subtypeNew_a8_wf {k : Slot} {nn : Nat} {c : AnsiVal}
    (h : subtypeNew AnsiTyp.a8 (wire8 k nn) = some c) :
    (SgrVal.color c).wf = true := by
  unfold subtypeNew at h
  rw [parse_wire8] at h
  cases h8 : ansi_8bit_to_rgb nn with
  | none =>
    rw [h8] at h
    simp only [Option.map_none', Option.bind_eq_bind, Option.none_bind] at h
    exact Option.noConfusion h
  | some rgb =>
    rw [h8] at h
    simp only [Option.map_some', Option.bind_eq_bind, Option.some_bind] at h
    rw [if_neg (by simp)] at h
    have h2 := Option.some.inj h
    subst h2
    cases k <;> rfl

theorem genColorbytes_wf : ∀ (n : Nat) (items : List InItem),
    items.length ≤ n → ∀ vals, genColorbytes items = some vals →
    (∀ c : AnsiVal, InItem.colorItem c ∈ items →
      (SgrVal.color c).wf = true) →
    ∀ p ∈ vals, p.wf = true := by
  intro n
  induction n with
  | zero =>
    intro items hlen vals hgen hcol
    have hnil : items = [] := List.eq_nil_of_length_eq_zero
      (Nat.le_zero.mp hlen)
    subst hnil
    unfold genColorbytes at hgen
    cases hgen
    intro p hp
    cases hp
  | succ n ih =>
    intro items hlen vals hgen hcol
    cases items with
    | nil =>
      unfold genColorbytes at hgen
      cases hgen
      intro p hp
      cases hp
    | cons it rest =>
      simp only [List.length_cons, Nat.add_le_add_iff_right] at hlen
      cases it with
      | colorItem c =>
        simp only [genColorbytes, Option.pure_def, Option.bind_eq_bind] at hgen
        cases hrest : genColorbytes rest with
        | none => rw [hrest] at hgen; exact Option.noConfusion hgen
        | some vs =>
          rw [hrest] at hgen
          simp only [Option.some_bind] at hgen
          cases hgen
          intro p hp
          rcases List.mem_cons.mp hp with rfl | hp'
          · exact hcol c (List.mem_cons_self _ _)
          · exact ih rest hlen vs hrest
              (fun c2 hc2 => hcol c2 (List.mem_cons_of_mem _ hc2)) p hp'
      | num v =>
        simp only [genColorbytes] at hgen
        by_cases h38 : v = 38 ∨ v = 48
        · rw [if_pos h38] at hgen
          split at hgen
          · -- 8-bit: rest = num 5 :: num nn :: rest'
            rename_i nn rest'
            simp only [Option.pure_def, Option.bind_eq_bind] at hgen
            cases hsub : subtypeNew AnsiTyp.a8
                (wire8 (if v = 38 then Slot.fg else Slot.bg) nn) with
            | none => rw [hsub] at hgen; exact Option.noConfusion hgen
            | some c =>
              rw [hsub] at hgen
              simp only [Option.some_bind] at hgen
              cases hrest : genColorbytes rest' with
              | none => rw [hrest] at hgen; exact Option.noConfusion hgen
              | some vs =>
                rw [hrest] at hgen
                simp only [Option.some_bind] at hgen
                cases hgen
                intro p hp
                rcases List.mem_cons.mp hp with rfl | hp'
                · exact subtypeNew_a8_wf hsub
                · refine ih rest' ?_ vs hrest ?_ p hp'
                  · simp only [List.length_cons] at hlen
                    omega
                  · intro c2 hc2
                    exact hcol c2 (List.mem_cons_of_mem _
                      (List.mem_cons_of_mem _ (List.mem_cons_of_mem _ hc2)))
          · -- 24-bit: rest = num m :: num r :: num g :: num b :: rest'
            rename_i mm rr gg bb rest' hne5
            simp only [Option.pure_def, Option.bind_eq_bind] at hgen
            cases hfr : fromRgb AnsiTyp.a24
                (if v = 38 then Slot.fg else Slot.bg) (rr, gg, bb) with
            | none => rw [hfr] at hgen; exact Option.noConfusion hgen
            | some c =>
              rw [hfr] at hgen
              simp only [Option.some_bind] at hgen
              cases hrest : genColorbytes rest' with
              | none => rw [hrest] at hgen; exact Option.noConfusion hgen
              | some vs =>
                rw [hrest] at hgen
                simp only [Option.some_bind] at hgen
                cases hgen
                intro p hp
                rcases List.mem_cons.mp hp with rfl | hp'
                · have hc := hfr
                  rw [fromRgb_a24_eq] at hc
                  have h2 := Option.some.inj hc
                  subst h2
                  exact wf_wire24 _ rr gg bb _
                · refine ih rest' ?_ vs hrest ?_ p hp'
                  · simp only [List.length_cons] at hlen
                    omega
                  · intro c2 hc2
                    refine hcol c2 ?_
                    exact List.mem_cons_of_mem _ (List.mem_cons_of_mem _
                      (List.mem_cons_of_mem _ (List.mem_cons_of_mem _
                        (List.mem_cons_of_mem _ hc2))))
          · exact Option.noConfusion hgen
        · rw [if_neg h38] at hgen
          cases hkv : ansi16I2KV v with
          | none =>
            rw [hkv] at hgen
            simp only [Option.pure_def, Option.bind_eq_bind] at hgen
            cases hrest : genColorbytes rest with
            | none => rw [hrest] at hgen; exact Option.noConfusion hgen
            | some vs =>
              rw [hrest] at hgen
              simp only [Option.some_bind] at hgen
              cases hgen
              intro p hp
              rcases List.mem_cons.mp hp with rfl | hp'
              · have hf : isAnsi16Code v = false := by
                  by_cases hlt : v < 108
                  · have := i2kv_isSome v hlt
                    rw [hkv] at this
                    exact this.symm
                  · simp only [isAnsi16Code, ansi16Std, ansi16Bright,
                      Bool.or_eq_false_iff, Bool.and_eq_false_iff,
                      decide_eq_false_iff_not]
                    omega
                unfold SgrVal.wf
                dsimp only
                rw [parseNat_encNat]
                simp [hf]
              · exact ih rest hlen vs hrest
                  (fun c2 hc2 => hcol c2 (List.mem_cons_of_mem _ hc2)) p hp'
          | some kv =>
            rw [hkv] at hgen
            simp only [Option.pure_def, Option.bind_eq_bind] at hgen
            obtain ⟨h16, hlt⟩ := i2kv_some_lt hkv
            have hchar := prepChar_all v hlt
            unfold prepCharCheck at hchar
            rw [hkv] at hchar
            have hfr := eq_of_beq hchar
            rw [hfr] at hgen
            simp only [Option.some_bind] at hgen
            cases hrest : genColorbytes rest with
            | none => rw [hrest] at hgen; exact Option.noConfusion hgen
            | some vs =>
              rw [hrest] at hgen
              simp only [Option.some_bind] at hgen
              cases hgen
              intro p hp
              rcases List.mem_cons.mp hp with rfl | hp'
              · exact wf_color4 h16 kv.2
              · exact ih rest hlen vs hrest
                  (fun c2 hc2 => hcol c2 (List.mem_cons_of_mem _ hc2)) p hp'

theorem initStep_inv {st : InitState} {x : SgrVal} {st1 : InitState}
    (h : initStep st x = some st1) (hxwf : x.wf = true)
    (hInv : InitInv st) : InitInv st1 := by
  obtain ⟨hwf, hcnt, hwit, hrs⟩ := hInv
  unfold initStep at h
  by_cases hseen : x.content ∈ st.seen
  · rw [if_pos hseen] at h
    cases h
    exact ⟨hwf, hcnt, hwit, hrs⟩
  · rw [if_neg hseen] at h
    cases hc : initStepCore st x with
    | none => rw [hc] at h; exact Option.noConfusion h
    | some pr =>
      rw [hc] at h
      obtain ⟨stA, param⟩ := pr
      have h2 := Option.some.inj (show some _ = some st1 from h)
      subst h2
      obtain ⟨hB1, hB2, hB3, hB4⟩ := initStepCore_inv hc hxwf hwf hcnt hwit
      cases param with
      | plain b =>
        obtain ⟨hPparams, hPslots, hPrgb⟩ := hB3 ⟨b, rfl⟩
        refine ⟨?_, ?_, ?_, ?_⟩
        · show ∀ p ∈ stA.params ++ [SgrVal.plain b], p.wf = true
          exact wf_append_single hB1 hB2
        · intro kk
          show countSlot (stA.params ++ [SgrVal.plain b]) kk ≤ 1
          rw [countSlot_append, countSlot_single_plain, hPparams]
          simpa using hcnt kk
        · intro kk
          have hAB : stSlot stA kk = stSlot st kk := hPslots kk
          rw [show (stSlot
            { stA with
                params := stA.params ++ [SgrVal.plain b]
                seen := stA.seen ++ [(SgrVal.plain b).content] } kk : Option Bytes)
            = stSlot stA kk from by cases kk <;> rfl, hAB]
          have hw := hwit kk
          cases hsl : stSlot st kk with
          | none =>
            rw [hsl] at hw
            show countSlot (stA.params ++ [SgrVal.plain b]) kk = 0
            rw [countSlot_append, countSlot_single_plain, hPparams]
            have hw0 : countSlot st.params kk = 0 := hw
            omega
          | some b2 =>
            rw [hsl] at hw
            have hw2 : ∃ c2 : AnsiVal, SgrVal.color c2 ∈ st.params
                ∧ c2.slot = kk ∧ c2.content = b2 := hw
            obtain ⟨c2, hm, hs2, hcont2⟩ := hw2
            have hm2 : SgrVal.color c2 ∈ stA.params := by
              rw [hPparams]
              exact hm
            exact ⟨c2, List.mem_append_left _ hm2, hs2, hcont2⟩
        · intro kk hrg
          have hrg2 : stRgb st kk = none := by
            rw [← hPrgb kk]
            exact hrg
          exact (hPslots kk).trans (hrs kk hrg2)
      | color c =>
        obtain ⟨hC1, hC2, hC3, hC4, hC5, hC6⟩ := hB4 c rfl
        refine ⟨?_, ?_, ?_, ?_⟩
        · show ∀ p ∈ stA.params ++ [SgrVal.color c], p.wf = true
          exact wf_append_single hB1 hB2
        · intro kk
          show countSlot (stA.params ++ [SgrVal.color c]) kk ≤ 1
          rw [countSlot_append]
          rcases slot_eq_or_other c.slot kk with rfl | rfl
          · rw [countSlot_single_color_same, hC1]
          · rw [countSlot_single_color_other, hC2 _ (otherSlot_ne c.slot)]
            simpa using hcnt (otherSlot c.slot)
        · intro kk
          rw [show (stSlot
            { stA with
                params := stA.params ++ [SgrVal.color c]
                seen := stA.seen ++ [(SgrVal.color c).content] } kk : Option Bytes)
            = stSlot stA kk from by cases kk <;> rfl]
          rcases slot_eq_or_other c.slot kk with rfl | rfl
          · rw [hC3]
            exact ⟨c, List.mem_append_right _ (List.mem_cons_self _ _),
              rfl, rfl⟩
          · rw [(hC5 _ (otherSlot_ne c.slot)).1]
            cases hsl : stSlot st (otherSlot c.slot) with
            | none =>
              have hw := hwit (otherSlot c.slot)
              rw [hsl] at hw
              have hw0 : countSlot st.params (otherSlot c.slot) = 0 := hw
              show countSlot (stA.params ++ [SgrVal.color c])
                (otherSlot c.slot) = 0
              rw [countSlot_append, countSlot_single_color_other,
                hC2 _ (otherSlot_ne c.slot)]
              omega
            | some b2 =>
              obtain ⟨c3, hm3, hs3, hcont3⟩ :=
                hC6 (otherSlot c.slot) b2 (otherSlot_ne c.slot) hsl
              exact ⟨c3, List.mem_append_left _ hm3, hs3, hcont3⟩
        · intro kk hrg
          rcases slot_eq_or_other c.slot kk with rfl | rfl
          · have hsomeR : stRgb
                { stA with
                    params := stA.params ++ [SgrVal.color c]
                    seen := stA.seen ++ [(SgrVal.color c).content] } c.slot
                = some c.rgb := hC4
            rw [hsomeR] at hrg
            exact Option.noConfusion hrg
          · have hrg2 : stRgb st (otherSlot c.slot) = none := by
              rw [← (hC5 _ (otherSlot_ne c.slot)).2]
              exact hrg
            exact ((hC5 _ (otherSlot_ne c.slot)).1).trans
              (hrs _ hrg2)

theorem fold_initStep_inv : ∀ (vals : List SgrVal) (st st' : InitState),
    (∀ v ∈ vals, v.wf = true) → InitInv st →
    vals.foldlM initStep st = some st' → InitInv st' := by
  intro vals
  induction vals with
  | nil =>
    intro st st' _ hInv h
    cases h
    exact hInv
  | cons v vs ih =>
    intro st st' hvals hInv h
    rw [List.foldlM_cons] at h
    cases h1 : initStep st v with
    | none => rw [h1] at h; exact Option.noConfusion h
    | some st1 =>
      rw [h1] at h
      exact ih st1 st' (fun w hw => hvals w (List.mem_cons_of_mem _ hw))
        (initStep_inv h1 (hvals v (List.mem_cons_self _ _)) hInv) h

theorem SgrInv_resetSgr : SgrInv resetSgr := by
  refine ⟨?_, ?_, ?_⟩
  · intro p hp
    rw [List.mem_singleton.mp hp]
    decide
  · intro k
    cases k <;> decide
  · intro k _
    cases k <;> decide

theorem initFinalize_inv {st : InitState} {s : Sgr}
    (h : initFinalize st = some s) (hInv : InitInv st) : SgrInv s := by
  obtain ⟨hwf, hcnt, hwit, hrs⟩ := hInv
  unfold initFinalize at h
  cases hlast : st.params.getLast? with
  | none => rw [hlast] at h; exact Option.noConfusion h
  | some lastP =>
    rw [hlast] at h
    dsimp only at h
    by_cases h48 : lastP.content = [48]
    · rw [if_pos h48] at h
      have h2 := Option.some.inj h
      subst h2
      have hlmem := List.mem_of_getLast?_eq_some hlast
      have hlwf := hwf _ hlmem
      cases lastP with
      | plain b =>
        have hb : b = [48] := h48
        subst hb
        exact SgrInv_resetSgr
      | color c =>
        exfalso
        unfold SgrVal.wf at hlwf
        dsimp only at hlwf
        rw [show c.content = [48] from h48] at hlwf
        rw [show parseNat [48] = some 0 from rfl] at hlwf
        simp [isAnsi16Code, ansi16Std, ansi16Bright] at hlwf
    · rw [if_neg h48] at h
      have h2 := Option.some.inj h
      subst h2
      refine ⟨hwf, ?_, ?_⟩
      · intro k
        show countSlot st.params k ≤ 1
        exact hcnt k
      · intro k hk
        have hrgk : stRgb st k = none := by
          cases k
          · exact hk
          · exact hk
        have hslk := hrs k hrgk
        have hw := hwit k
        rw [hslk] at hw
        exact hw

theorem SgrInit_inv {items : List InItem} {s : Sgr}
    (h : SgrInit items = some s)
    (hcol : ∀ c : AnsiVal, InItem.colorItem c ∈ items →
      (SgrVal.color c).wf = true) : SgrInv s := by
  unfold SgrInit at h
  by_cases hnil : items = []
  · rw [if_pos hnil] at h
    have h2 := Option.some.inj h
    subst h2
    refine ⟨fun p hp => absurd hp (List.not_mem_nil p), ?_, ?_⟩
    · intro k
      exact Nat.zero_le 1
    · intro k _
      rfl
  · rw [if_neg hnil] at h
    cases hg : genColorbytes items with
    | none => rw [hg] at h; exact Option.noConfusion h
    | some vals =>
      rw [hg] at h
      simp only [Option.bind_eq_bind, Option.some_bind] at h
      cases hf : vals.foldlM initStep
          ⟨[], [], none, none, none, none, false, false, false⟩ with
      | none => rw [hf] at h; exact Option.noConfusion h
      | some st =>
        rw [hf] at h
        simp only [Option.some_bind] at h
        have hwfv : ∀ p ∈ vals, p.wf = true :=
          genColorbytes_wf items.length items (Nat.le_refl _) vals hg hcol
        have hInv0 : InitInv
            ⟨[], [], none, none, none, none, false, false, false⟩ := by
          refine ⟨?_, ?_, ?_, ?_⟩
          · intro p hp
            exact absurd hp (List.not_mem_nil p)
          · intro k
            exact Nat.zero_le 1
          · intro k
            cases k <;> rfl
          · intro k _
            cases k <;> rfl
        exact initFinalize_inv h (fold_initStep_inv vals _ st hwfv hInv0 hf)

/-- C2: slot exclusivity.  For every `SgrSequence` built by the constructor
from a stream of SGR parameters and well-formed ready-made color values, and
every finite sequence of `append` operations completing on it, the result
holds at most one color entry for the foreground slot and at most one for the
background slot — appending a color for an occupied slot removes the prior
entry for that slot in the same operation, so the bound holds after any
prefix of operations (a prefix of `ops` is itself a valid `ops`). -/
theorem c2_slot_exclusivity : ∀ (items : List InItem) (s0 : Sgr)
    (ops : List Nat) (s' : Sgr),
    (∀ c : AnsiVal, InItem.colorItem c ∈ items →
      (SgrVal.color c).wf = true) →
    SgrInit items = some s0 → applyAppends s0 ops = some s' →
    s'.colorCount Slot.fg ≤ 1 ∧ s'.colorCount Slot.bg ≤ 1 := by
  intro items s0 ops s' hcol h0 happ
  have hInv := applyAppends_inv ops s0 s' (SgrInit_inv h0 hcol) happ
  exact ⟨hInv.2.1 Slot.fg, hInv.2.1 Slot.bg⟩

/-- Witness for C2 at a concrete run: construct from `[31]` (red foreground),
then append `42` (green background) and `31` again — the repeated foreground
color replaces the prior entry, leaving one color per slot. -/
theorem c2_slot_exclusivity_witness :
    Sgr.colorCount
      ⟨[SgrVal.color ⟨AnsiTyp.a4, Slot.bg, [52, 50], (0, 170, 0)⟩,
        SgrVal.color ⟨AnsiTyp.a4, Slot.fg, [51, 49], (170, 0, 0)⟩],
       some (170, 0, 0), some (0, 170, 0), false⟩ Slot.fg ≤ 1
    ∧ Sgr.colorCount
      ⟨[SgrVal.color ⟨AnsiTyp.a4, Slot.bg, [52, 50], (0, 170, 0)⟩,
        SgrVal.color ⟨AnsiTyp.a4, Slot.fg, [51, 49], (170, 0, 0)⟩],
       some (170, 0, 0), some (0, 170, 0), false⟩ Slot.bg ≤ 1 :=
  c2_slot_exclusivity [InItem.num 31]
    ⟨[SgrVal.color ⟨AnsiTyp.a4, Slot.fg, [51, 49], (170, 0, 0)⟩],
     some (170, 0, 0), none, false⟩
    [42, 31]
    ⟨[SgrVal.color ⟨AnsiTyp.a4, Slot.bg, [52, 50], (0, 170, 0)⟩,
      SgrVal.color ⟨AnsiTyp.a4, Slot.fg, [51, 49], (170, 0, 0)⟩],
     some (170, 0, 0), some (0, 170, 0), false⟩
    (fun c hc => InItem.noConfusion (List.mem_singleton.mp hc))
    (by decide) (by decide)

/-! ### Claim C6: serialization of an empty style -/
/-- C6 (counterexample): a `ColorStr` built from plain text with no color
spec and no `no_reset` override serializes to the text *plus a trailing
reset*, not to the bare text. -/
theorem c6_plain_counterexample :
    (colorStrNewPlain [104, 105] false).str = [104, 105] ++ SGR_RESET
    ∧ (colorStrNewPlain [104, 105] false).str ≠ [104, 105] := by
  exact ⟨rfl, by decide⟩

/-- C6 (amended): with no color spec the serialization carries no escape
bytes before or inside the text; it is exactly the input text when
`no_reset=True`, and the text followed by the reset sequence under the
default `no_reset=False`. -/
theorem c6_plain_amended : ∀ (text : Bytes) (noReset : Bool),
    CSI.isPrefixOf text = false →
    (colorStrNewPlain text true).str = text
    ∧ (colorStrNewPlain text noReset).str =
        text ++ (if noReset then [] else SGR_RESET) := by
  intro text noReset _
  constructor
  · show Sgr.bytes Sgr.empty ++ text ++ [] = text
    simp [Sgr.bytes, Sgr.empty]
  · simp [ColorStr.str, colorStrNewPlain, Sgr.bytes, Sgr.empty]

/-- Witness for C6 (amended) at the concrete text `"h"`. -/
theorem c6_plain_amended_witness :
    (colorStrNewPlain [104] true).str = [104]
    ∧ (colorStrNewPlain [104] false).str =
        [104] ++ (if false then [] else SGR_RESET) :=
  c6_plain_amended [104] false (by decide)

/-! ### Claim C7: concatenation -/
/-- C7 (counterexample): concatenation keeps the *left* operand's
suppress-reset flag, not the right one's: a `no_reset=True` string plus a
`no_reset=False` string yields a `no_reset=True` result. -/
theorem c7_concat_counterexample :
    colorStrAdd ⟨Sgr.empty, [97], true, AnsiTyp.a8⟩
        ⟨Sgr.empty, [98], false, AnsiTyp.a8⟩ =
      some ⟨Sgr.empty, [97, 98], true, AnsiTyp.a8⟩
    ∧ (⟨Sgr.empty, [97, 98], true, AnsiTyp.a8⟩ : ColorStr).noReset ≠
      (⟨Sgr.empty, [98], false, AnsiTyp.a8⟩ : ColorStr).noReset := by
  exact ⟨by decide, by decide⟩

/-- C7 (amended): concatenation concatenates the texts and merges the
styles through the `SgrSequence` reconstruction (the right-hand side winning
slot conflicts, as the red-plus-green instance shows), but the result's
suppress-reset flag — like every field other than `_sgr_` and `_base_str_`
— comes from the *left* operand. -/
theorem c7_concat_amended :
    (∀ a b c : ColorStr, colorStrAdd a b = some c →
      c.base = a.base ++ b.base ∧ c.noReset = a.noReset
        ∧ c.ansiTyp = a.ansiTyp ∧ Sgr.add a.sgr b.sgr = some c.sgr)
    ∧ colorStrAdd
        ⟨⟨[SgrVal.color ⟨AnsiTyp.a4, Slot.fg, [51, 49], (170, 0, 0)⟩],
          some (170, 0, 0), none, false⟩, [97], false, AnsiTyp.a4⟩
        ⟨⟨[SgrVal.color ⟨AnsiTyp.a4, Slot.fg, [51, 50], (0, 170, 0)⟩],
          some (0, 170, 0), none, false⟩, [98], false, AnsiTyp.a4⟩ =
      some ⟨⟨[SgrVal.color ⟨AnsiTyp.a4, Slot.fg, [51, 50], (0, 170, 0)⟩],
          some (0, 170, 0), none, false⟩, [97, 98], false, AnsiTyp.a4⟩ := by
  constructor
  · intro a b c h
    unfold colorStrAdd at h
    cases hadd : Sgr.add a.sgr b.sgr with
    | none =>
      rw [hadd] at h
      exact Option.noConfusion h
    | some s =>
      rw [hadd] at h
      simp only [Option.map_some'] at h
      have h2 := Option.some.inj h
      subst h2
      exact ⟨rfl, rfl, rfl, rfl⟩
  · decide

/-- Witness for C7 (amended): the universal field part applied at the
red-plus-green instance. -/
theorem c7_concat_amended_witness :
    (⟨⟨[SgrVal.color ⟨AnsiTyp.a4, Slot.fg, [51, 50], (0, 170, 0)⟩],
        some (0, 170, 0), none, false⟩, [97, 98], false, AnsiTyp.a4⟩
      : ColorStr).base = [97] ++ [98]
    ∧ (⟨⟨[SgrVal.color ⟨AnsiTyp.a4, Slot.fg, [51, 50], (0, 170, 0)⟩],
        some (0, 170, 0), none, false⟩, [97, 98], false, AnsiTyp.a4⟩
      : ColorStr).noReset = false
    ∧ (⟨⟨[SgrVal.color ⟨AnsiTyp.a4, Slot.fg, [51, 50], (0, 170, 0)⟩],
        some (0, 170, 0), none, false⟩, [97, 98], false, AnsiTyp.a4⟩
      : ColorStr).ansiTyp = AnsiTyp.a4
    ∧ Sgr.add
        ⟨[SgrVal.color ⟨AnsiTyp.a4, Slot.fg, [51, 49], (170, 0, 0)⟩],
          some (170, 0, 0), none, false⟩
        ⟨[SgrVal.color ⟨AnsiTyp.a4, Slot.fg, [51, 50], (0, 170, 0)⟩],
          some (0, 170, 0), none, false⟩ =
      some (⟨⟨[SgrVal.color ⟨AnsiTyp.a4, Slot.fg, [51, 50], (0, 170, 0)⟩],
          some (0, 170, 0), none, false⟩, [97, 98], false, AnsiTyp.a4⟩
        : ColorStr).sgr :=
  c7_concat_amended.1
    ⟨⟨[SgrVal.color ⟨AnsiTyp.a4, Slot.fg, [51, 49], (170, 0, 0)⟩],
      some (170, 0, 0), none, false⟩, [97], false, AnsiTyp.a4⟩
    ⟨⟨[SgrVal.color ⟨AnsiTyp.a4, Slot.fg, [51, 50], (0, 170, 0)⟩],
      some (0, 170, 0), none, false⟩, [98], false, AnsiTyp.a4⟩
    ⟨⟨[SgrVal.color ⟨AnsiTyp.a4, Slot.fg, [51, 50], (0, 170, 0)⟩],
      some (0, 170, 0), none, false⟩, [97, 98], false, AnsiTyp.a4⟩
    (by decide)

/-! ### Claim C10: the `@` operator -/
/-- C10: `a @ b` builds a new `ColorStr` keeping `a`'s base string and
ANSI format while taking `b`'s SGR sequence and suppress-reset flag (the
operands themselves are untouched — the operation builds a new instance
via `_weak_var_update`); any operand of another type raises `TypeError`. -/
theorem c10_matmul :
    (∀ a b : ColorStr, colorStrMatmul a (MatVal.cstr b) =
      some ⟨b.sgr, a.base, b.noReset, a.ansiTyp⟩)
    ∧ (∀ a : ColorStr, colorStrMatmul a MatVal.nonCstr = none) :=
  ⟨fun _ _ => rfl, fun _ => rfl⟩

/-! ### Claim C8: the toggle operation -/
/-- C8 (counterexample): the toggle *can* fail on recognized SGR parameters:
the extended introducers (38 here) are rejected with `ValueError` by
explicit design, and even a plain bright color code (91) raises through the
bright-color bookkeeping when toggled onto a standard red style (the
`append` cascade pops a bold code that is not there). -/
theorem c8_toggle_counterexample :
    (38 ∈ sgrParamValues
      ∧ colorStrUpdateSgr (colorStrNewPlain [104] false) [38] = none)
    ∧ (91 ∈ sgrParamValues
      ∧ colorStrUpdateSgr
          ⟨⟨[SgrVal.color ⟨AnsiTyp.a4, Slot.fg, [51, 49], (170, 0, 0)⟩],
            some (170, 0, 0), none, false⟩, [104], false, AnsiTyp.a4⟩
          [91] = none) := by
  exact ⟨⟨by decide, by decide⟩, ⟨by decide, by decide⟩⟩

/-- C8 (amended): toggling either extended color introducer fails with
`ValueError` on every `ColorStr`; toggling any other recognized parameter
on an unstyled `ColorStr` never fails and adds the code, and toggling a
present code removes it, as the add-then-remove round trip on red shows. -/
theorem c8_toggle_amended :
    (∀ cs : ColorStr, colorStrUpdateSgr cs [38] = none
      ∧ colorStrUpdateSgr cs [48] = none)
    ∧ (∀ x ∈ sgrParamValues, x ≠ 38 → x ≠ 48 →
      (colorStrUpdateSgr (colorStrNewPlain [] false) [x]).isSome = true)
    ∧ colorStrUpdateSgr (colorStrNewPlain [] false) [31] =
      some ⟨⟨[SgrVal.color ⟨AnsiTyp.a4, Slot.fg, [51, 49], (170, 0, 0)⟩],
        some (170, 0, 0), none, false⟩, [], false, AnsiTyp.a4⟩
    ∧ colorStrUpdateSgr
        ⟨⟨[SgrVal.color ⟨AnsiTyp.a4, Slot.fg, [51, 49], (170, 0, 0)⟩],
          some (170, 0, 0), none, false⟩, [], false, AnsiTyp.a4⟩ [31] =
      some ⟨Sgr.empty, [], false, AnsiTyp.a4⟩ := by
  refine ⟨fun cs => ⟨rfl, rfl⟩, ?_, by decide, by decide⟩
  decide

/-- Witness for C8 (amended): toggling bold (1) on the unstyled string. -/
theorem c8_toggle_amended_witness :
    (colorStrUpdateSgr (colorStrNewPlain [] false) [1]).isSome = true :=
  c8_toggle_amended.2.1 1 (by decide) (by decide) (by decide)

/-! ### Claim C9: subtraction -/
/-- C9 (counterexample): subtraction does *not* always replace the shared
slot's color with the difference — on a style holding a bright foreground
and a 24-bit background, subtracting a background-only style raises: the
`rgb_dict` setter pops the extended background color while the bright flag
is set, and `int()` on its `38;2;…`-style bytes fails. -/
theorem c9_sub_counterexample :
    (⟨[SgrVal.color ⟨AnsiTyp.a4, Slot.fg, [57, 49], (255, 85, 85)⟩,
        SgrVal.color ⟨AnsiTyp.a24, Slot.bg,
          [52, 56, 59, 50, 59, 49, 48, 59, 50, 48, 59, 51, 48],
          (10, 20, 30)⟩],
       some (255, 85, 85), some (10, 20, 30), true⟩
      : Sgr).rgbGet Slot.bg = some (10, 20, 30)
    ∧ (⟨[SgrVal.color ⟨AnsiTyp.a24, Slot.bg,
          [52, 56, 59, 50, 59, 49, 59, 50, 59, 51], (1, 2, 3)⟩],
       none, some (1, 2, 3), false⟩ : Sgr).rgbGet Slot.bg = some (1, 2, 3)
    ∧ colorStrSub
        ⟨⟨[SgrVal.color ⟨AnsiTyp.a4, Slot.fg, [57, 49], (255, 85, 85)⟩,
           SgrVal.color ⟨AnsiTyp.a24, Slot.bg,
             [52, 56, 59, 50, 59, 49, 48, 59, 50, 48, 59, 51, 48],
             (10, 20, 30)⟩],
          some (255, 85, 85), some (10, 20, 30), true⟩, [], false,
          AnsiTyp.a24⟩
        ⟨⟨[SgrVal.color ⟨AnsiTyp.a24, Slot.bg,
            [52, 56, 59, 50, 59, 49, 59, 50, 59, 51], (1, 2, 3)⟩],
          none, some (1, 2, 3), false⟩, [], false, AnsiTyp.a24⟩ = none := by
  exact ⟨by decide, by decide, by decide⟩

/-- C9 (amended): when the operands share no color slot the left operand is
returned unchanged; when they share a slot the result carries the
per-channel absolute difference — as the stated fg example shows:
(200,100,50) minus (50,100,200) is (150,0,150). -/
theorem c9_sub_amended :
    (∀ a b : ColorStr,
      (a.sgr.rgbGet Slot.fg = none ∨ b.sgr.rgbGet Slot.fg = none) →
      (a.sgr.rgbGet Slot.bg = none ∨ b.sgr.rgbGet Slot.bg = none) →
      colorStrSub a b = some a)
    ∧ rgb_diff (200, 100, 50) (50, 100, 200) = (150, 0, 150)
    ∧ (colorStrSub
        ⟨⟨[SgrVal.color ⟨AnsiTyp.a24, Slot.fg,
            [51, 56, 59, 50, 59, 50, 48, 48, 59, 49, 48, 48, 59, 53, 48],
            (200, 100, 50)⟩], some (200, 100, 50), none, false⟩,
          [], false, AnsiTyp.a24⟩
        ⟨⟨[SgrVal.color ⟨AnsiTyp.a24, Slot.fg,
            [51, 56, 59, 50, 59, 53, 48, 59, 49, 48, 48, 59, 50, 48, 48],
            (50, 100, 200)⟩], some (50, 100, 200), none, false⟩,
          [], false, AnsiTyp.a24⟩).map
        (fun c => c.sgr.rgbGet Slot.fg) = some (some (150, 0, 150)) := by
  refine ⟨?_, by decide, by decide⟩
  intro a b hfg hbg
  have hdfg : (match a.sgr.rgbGet Slot.fg, b.sgr.rgbGet Slot.fg with
      | some ra, some rb => [(Slot.fg, rgb_diff ra rb)]
      | _, _ => ([] : List (Slot × Rgb))) = [] := by
    rcases hfg with h | h
    · rw [h]
    · rw [h]
      cases a.sgr.rgbGet Slot.fg <;> rfl
  have hdbg : (match a.sgr.rgbGet Slot.bg, b.sgr.rgbGet Slot.bg with
      | some ra, some rb => [(Slot.bg, rgb_diff ra rb)]
      | _, _ => ([] : List (Slot × Rgb))) = [] := by
    rcases hbg with h | h
    · rw [h]
    · rw [h]
      cases a.sgr.rgbGet Slot.bg <;> rfl
  unfold colorStrSub
  rw [if_pos]
  unfold subDiffs
  rw [hdfg, hdbg]
  rfl

/-- Witness for C9 (amended): subtracting a background-only style from a
foreground-only style leaves the left operand untouched. -/
theorem c9_sub_amended_witness :
    colorStrSub
      ⟨⟨[SgrVal.color ⟨AnsiTyp.a4, Slot.fg, [51, 49], (170, 0, 0)⟩],
        some (170, 0, 0), none, false⟩, [], false, AnsiTyp.a4⟩
      ⟨⟨[SgrVal.color ⟨AnsiTyp.a4, Slot.bg, [52, 50], (0, 170, 0)⟩],
        none, some (0, 170, 0), false⟩, [], false, AnsiTyp.a4⟩ =
    some ⟨⟨[SgrVal.color ⟨AnsiTyp.a4, Slot.fg, [51, 49], (170, 0, 0)⟩],
        some (170, 0, 0), none, false⟩, [], false, AnsiTyp.a4⟩ :=
  c9_sub_amended.1
    ⟨⟨[SgrVal.color ⟨AnsiTyp.a4, Slot.fg, [51, 49], (170, 0, 0)⟩],
      some (170, 0, 0), none, false⟩, [], false, AnsiTyp.a4⟩
    ⟨⟨[SgrVal.color ⟨AnsiTyp.a4, Slot.bg, [52, 50], (0, 170, 0)⟩],
      none, some (0, 170, 0), false⟩, [], false, AnsiTyp.a4⟩
    (Or.inr rfl) (Or.inl rfl)

end Chromatic
